import Mathlib

/-!
# Conjugate gradient over an abstract high-precision scalar

Shallow embedding of `include/linear_algebra/conjugate_gradient.hpp` and of the
comparison operators of `include/bailey/qx_arithmetic.hpp`.

The solver is a C++ template over the scalar type `T`.  Its arithmetic is supplied
by the precision backend (`qxadd_`, `ddadd_`, ...) and by Eigen, neither of which is
part of the repository, so the embedding takes them as a record of operations
(`Ops`).  Everything the solver itself does (the order of the updates, the history
bookkeeping, the convergence test, the early exit, the assignment of `iter_final`
and `is_converged`) is translated statement by statement.
-/

namespace linear_algebra

/-- The operations `conjugateGradient<T>` uses: `T` is the scalar type, `V` is
`Eigen::Vector<T, Dynamic>`, `M` is `Eigen::SparseMatrix<T>` and `D` is the native
`double`.  `matvec A v` is `A * v`, `smul a v` is `a * v`, `lt` is `<` on `double`. -/
structure Ops (T V M D : Type) where
  matvec : M → V → V
  vadd : V → V → V
  vsub : V → V → V
  smul : T → V → V
  dot : V → V → T
  div : T → T → T
  sqrt : T → T
  to_double : T → D
  lt : D → D → Bool

/-- The struct `CGResult`.  `iter_final` and `is_converged` have no initialiser in the
source: `none` stands for a field that no executed statement has assigned.  The field
`time` (wall-clock duration) is not part of the embedding. -/
structure CGResult (D : Type) where
  iter_final : Option Int
  is_converged : Option Bool
  hist_relres_2 : List D
  true_relres_2 : D
  hist_relerr_2 : List D
  hist_relerr_A : List D

/-- The exception a call can raise: `std::vector::reserve` throws `std::length_error`
when the requested capacity exceeds `max_size()`. -/
inductive CGError where
  | length_error
  deriving DecidableEq, Repr

/-- The variables that are live across iterations of the `for` loop: the caller's `x`,
the locals `r`, `p`, `rs_old`, and the fields of `result` the loop writes. -/
structure CGLoop (T V D : Type) where
  x : V
  r : V
  p : V
  rs_old : T
  iter_final : Option Int
  is_converged : Option Bool
  hist_relres_2 : List D
  hist_relerr_2 : List D
  hist_relerr_A : List D

variable {T V M D : Type}

/-- The loop `for (int k = 0; k < max_iter; ++k) { ... }` (lines 64-100), with `k` the
second argument.  The first argument bounds the number of passes for the recursion; a
call starts it at `max_iter` (at `0` when `max_iter` is negative), which the condition
`k < max_iter` never lets the loop exceed. -/
def cgLoop (ops : Ops T V M D) (A : M) (x_true : V) (b_norm x_true_norm : T)
    (max_iter : Int) (tolerance : D) : Nat → Int → CGLoop T V D → CGLoop T V D
  | 0, _, s => s
  | fuel + 1, k, s =>
    if k < max_iter then
      let Ap := ops.matvec A s.p
      let alpha := ops.div s.rs_old (ops.dot s.p Ap)
      let x := ops.vadd s.x (ops.smul alpha s.p)
      let r := ops.vsub s.r (ops.smul alpha Ap)
      let rs_new := ops.dot r r
      let residual_norm := ops.sqrt rs_new
      let hist_relres_2 := s.hist_relres_2 ++ [ops.to_double (ops.div residual_norm b_norm)]
      let error := ops.vsub x x_true
      let error_norm := ops.sqrt (ops.dot error error)
      let hist_relerr_2 :=
        s.hist_relerr_2 ++ [ops.to_double (ops.div error_norm x_true_norm)]
      let A_error := ops.matvec A error
      let A_error_norm := ops.sqrt (ops.dot A_error A_error)
      let hist_relerr_A :=
        s.hist_relerr_A ++ [ops.to_double (ops.div A_error_norm x_true_norm)]
      if ops.lt (ops.to_double residual_norm) tolerance then
        { x := x, r := r, p := s.p, rs_old := s.rs_old,
          iter_final := some (k + 1), is_converged := some true,
          hist_relres_2 := hist_relres_2, hist_relerr_2 := hist_relerr_2,
          hist_relerr_A := hist_relerr_A }
      else
        let beta := ops.div rs_new s.rs_old
        let p := ops.vadd r (ops.smul beta s.p)
        let last := decide (k = max_iter - 1)
        cgLoop ops A x_true b_norm x_true_norm max_iter tolerance fuel (k + 1)
          { x := x, r := r, p := p, rs_old := rs_new,
            iter_final := if last then some max_iter else s.iter_final,
            is_converged := if last then some false else s.is_converged,
            hist_relres_2 := hist_relres_2, hist_relerr_2 := hist_relerr_2,
            hist_relerr_A := hist_relerr_A }
    else
      s

/-- The state on entry to the loop (lines 40-62): `r = b - A*x`, `p = r`,
`rs_old = r.dot(r)`, and the three histories holding the iteration-0 metrics. -/
def cgStart (ops : Ops T V M D) (A : M) (b x x_true : V) : CGLoop T V D :=
  let r := ops.vsub b (ops.matvec A x)
  let p := r
  let rs_old := ops.dot r r
  let b_norm := ops.sqrt (ops.dot b b)
  let x_true_norm := ops.sqrt (ops.dot x_true x_true)
  let init_residual_norm := ops.sqrt rs_old
  let error := ops.vsub x x_true
  let error_norm := ops.sqrt (ops.dot error error)
  let A_error := ops.matvec A error
  let A_error_norm := ops.sqrt (ops.dot A_error A_error)
  { x := x, r := r, p := p, rs_old := rs_old,
    iter_final := none, is_converged := none,
    hist_relres_2 := [ops.to_double (ops.div init_residual_norm b_norm)],
    hist_relerr_2 := [ops.to_double (ops.div error_norm x_true_norm)],
    hist_relerr_A := [ops.to_double (ops.div A_error_norm x_true_norm)] }

/-- The state on exit from the loop of a call whose `reserve` calls succeeded. -/
def cgRun (ops : Ops T V M D) (A : M) (b x x_true : V) (max_iter : Int) (tolerance : D) :
    CGLoop T V D :=
  cgLoop ops A x_true (ops.sqrt (ops.dot b b)) (ops.sqrt (ops.dot x_true x_true))
    max_iter tolerance max_iter.toNat 0 (cgStart ops A b x x_true)

/-- The function `conjugateGradient` (lines 29-112).  It returns the `CGResult` together
with the final content of the in/out argument `x`.  `reserve(max_iter + 1)` takes a
`size_t`: a negative `int` converts to a value above `max_size()` and the call throws
before anything is written, a non-negative one is a valid capacity.  Values of type
`int` are integers: the only `int` arithmetic of the function that can leave the range
of the type is `max_iter + 1` at `max_iter = INT_MAX`, where the source has no defined
behaviour. -/
def conjugateGradient (ops : Ops T V M D) (A : M) (b x x_true : V) (max_iter : Int)
    (tolerance : D) : Except CGError (CGResult D × V) :=
  if max_iter + 1 < 0 then
    Except.error CGError.length_error
  else
    let b_norm := ops.sqrt (ops.dot b b)
    let s := cgRun ops A b x x_true max_iter tolerance
    let true_residual := ops.vsub (ops.matvec A s.x) b
    let true_residual_norm := ops.sqrt (ops.dot true_residual true_residual)
    Except.ok
      ({ iter_final := s.iter_final, is_converged := s.is_converged,
         hist_relres_2 := s.hist_relres_2,
         true_relres_2 := ops.to_double (ops.div true_residual_norm b_norm),
         hist_relerr_2 := s.hist_relerr_2, hist_relerr_A := s.hist_relerr_A }, s.x)

/-! ### The recurrence of the specification -/

/-- The solver state of the specification: the iterate `x`, the residual `r`, the search
direction `p` and the squared residual norm `rs_old`. -/
structure SpecState (T V : Type) where
  x : V
  r : V
  p : V
  rs_old : T

/-- Step 1 of the specified algorithm: `r₀ = b − A·x₀`, `p₀ = r₀`, `rs_old = r₀·r₀`. -/
def spec_init (ops : Ops T V M D) (A : M) (b x0 : V) : SpecState T V :=
  let r0 := ops.vsub b (ops.matvec A x0)
  { x := x0, r := r0, p := r0, rs_old := ops.dot r0 r0 }

/-- Steps 4a, 4b, 4c and 4e of the specified algorithm: `α = rs_old / (p·Ap)`,
`x ← x + α·p`, `r ← r − α·Ap`, `rs_new = r·r`, `β = rs_new / rs_old`, `p ← r + β·p`,
`rs_old ← rs_new`. -/
def spec_step (ops : Ops T V M D) (A : M) (s : SpecState T V) : SpecState T V :=
  let Ap := ops.matvec A s.p
  let alpha := ops.div s.rs_old (ops.dot s.p Ap)
  let x := ops.vadd s.x (ops.smul alpha s.p)
  let r := ops.vsub s.r (ops.smul alpha Ap)
  let rs_new := ops.dot r r
  let beta := ops.div rs_new s.rs_old
  { x := x, r := r, p := ops.vadd r (ops.smul beta s.p), rs_old := rs_new }

/-- The specified state after `i` iterations. -/
def spec_iterate (ops : Ops T V M D) (A : M) (b x0 : V) : Nat → SpecState T V
  | 0 => spec_init ops A b x0
  | i + 1 => spec_step ops A (spec_iterate ops A b x0 i)

/-- The convergence test of step 4d on the state an iteration produced:
`narrow(sqrt(rs_new)) < tolerance`. -/
def spec_converged (ops : Ops T V M D) (tolerance : D) (s : SpecState T V) : Bool :=
  ops.lt (ops.to_double (ops.sqrt s.rs_old)) tolerance

/-- Relative residual 2-norm of a state, narrowed: `sqrt(r·r) / b_norm`. -/
def spec_relres_2 (ops : Ops T V M D) (b : V) (s : SpecState T V) : D :=
  ops.to_double (ops.div (ops.sqrt (ops.dot s.r s.r)) (ops.sqrt (ops.dot b b)))

/-- Relative error 2-norm of a state, narrowed: `‖x − x_true‖ / x_true_norm`. -/
def spec_relerr_2 (ops : Ops T V M D) (x_true : V) (s : SpecState T V) : D :=
  let e := ops.vsub s.x x_true
  ops.to_double (ops.div (ops.sqrt (ops.dot e e)) (ops.sqrt (ops.dot x_true x_true)))

/-- Relative error in the A-induced norm of a state, narrowed:
`‖A(x − x_true)‖ / x_true_norm`. -/
def spec_relerr_A (ops : Ops T V M D) (A : M) (x_true : V) (s : SpecState T V) : D :=
  let Ae := ops.matvec A (ops.vsub s.x x_true)
  ops.to_double (ops.div (ops.sqrt (ops.dot Ae Ae)) (ops.sqrt (ops.dot x_true x_true)))

/-- Number of iterations the specified loop executes when `fuel` more are allowed and
`i` have been executed: it stops after the first one whose state passes the test. -/
def spec_run (ops : Ops T V M D) (A : M) (b x0 : V) (tolerance : D) : Nat → Nat → Nat
  | 0, i => i
  | fuel + 1, i =>
    if spec_converged ops tolerance (spec_iterate ops A b x0 (i + 1)) then i + 1
    else spec_run ops A b x0 tolerance fuel (i + 1)

/-- The solver variables of a loop state, as a state of the specification. -/
def CGLoop.toSpec (s : CGLoop T V D) : SpecState T V :=
  { x := s.x, r := s.r, p := s.p, rs_old := s.rs_old }

/-- The loop state `s` is the specified state after `i` iterations, with the three
histories holding the metrics of the states `0 .. i`. -/
def LoopAt (ops : Ops T V M D) (A : M) (b x0 x_true : V) (s : CGLoop T V D) (i : Nat) :
    Prop :=
  s.toSpec = spec_iterate ops A b x0 i ∧
  s.hist_relres_2
    = (List.range (i + 1)).map (fun j => spec_relres_2 ops b (spec_iterate ops A b x0 j)) ∧
  s.hist_relerr_2
    = (List.range (i + 1)).map (fun j => spec_relerr_2 ops x_true (spec_iterate ops A b x0 j)) ∧
  s.hist_relerr_A
    = (List.range (i + 1)).map
        (fun j => spec_relerr_A ops A x_true (spec_iterate ops A b x0 j))

/-- What the loop leaves in `out` when it was entered in state `s` with `f > 0` iterations
allowed and the specification executes iterations up to state `m`: the iterate, the
residual and the histories are those of state `m`; when state `m` passes the test the
loop has set `iter_final = m`, `is_converged = true` and left `p`, `rs_old` as they
were in state `m - 1`; otherwise it has set `iter_final = max_iter`,
`is_converged = false` and `p`, `rs_old` are those of state `m`. -/
def LoopExit (ops : Ops T V M D) (A : M) (b x0 x_true : V) (max_iter : Int) (tol : D)
    (out : CGLoop T V D) (m : Nat) : Prop :=
  out.x = (spec_iterate ops A b x0 m).x ∧ out.r = (spec_iterate ops A b x0 m).r ∧
  out.hist_relres_2
    = (List.range (m + 1)).map (fun j => spec_relres_2 ops b (spec_iterate ops A b x0 j)) ∧
  out.hist_relerr_2
    = (List.range (m + 1)).map (fun j => spec_relerr_2 ops x_true (spec_iterate ops A b x0 j)) ∧
  out.hist_relerr_A
    = (List.range (m + 1)).map
        (fun j => spec_relerr_A ops A x_true (spec_iterate ops A b x0 j)) ∧
  (spec_converged ops tol (spec_iterate ops A b x0 m) = true →
    out.iter_final = some (m : Int) ∧ out.is_converged = some true ∧
    out.p = (spec_iterate ops A b x0 (m - 1)).p ∧
    out.rs_old = (spec_iterate ops A b x0 (m - 1)).rs_old) ∧
  (spec_converged ops tol (spec_iterate ops A b x0 m) = false →
    out.iter_final = some max_iter ∧ out.is_converged = some false ∧
    out.p = (spec_iterate ops A b x0 m).p ∧
    out.rs_old = (spec_iterate ops A b x0 m).rs_old)

/-! ### Exact arithmetic

The instance of `Ops` in which the scalar is a real number computed without rounding.
A division by zero and the square root of a negative number have no value: the result is
`none`, every operation on `none` gives `none`, and a comparison with `none` is false
(as the backends' non-finite values behave). -/

/-- Exact sum; undefined when an operand is. -/
def xadd (a b : Option ℝ) : Option ℝ :=
  match a, b with
  | some u, some v => some (u + v)
  | _, _ => none

/-- Exact difference; undefined when an operand is. -/
def xsub (a b : Option ℝ) : Option ℝ :=
  match a, b with
  | some u, some v => some (u - v)
  | _, _ => none

/-- Exact product; undefined when an operand is. -/
def xmul (a b : Option ℝ) : Option ℝ :=
  match a, b with
  | some u, some v => some (u * v)
  | _, _ => none

/-- Exact quotient; undefined when an operand is or when the divisor is zero. -/
noncomputable def xdiv (a b : Option ℝ) : Option ℝ :=
  match a, b with
  | some u, some v => if v = 0 then none else some (u / v)
  | _, _ => none

/-- Exact square root; undefined on an undefined or negative argument. -/
noncomputable def xsqrt (a : Option ℝ) : Option ℝ :=
  match a with
  | some u => if u < 0 then none else some (Real.sqrt u)
  | none => none

/-- Strict comparison; false when an operand is undefined. -/
noncomputable def xlt (a b : Option ℝ) : Bool :=
  match a, b with
  | some u, some v => decide (u < v)
  | _, _ => false

/-- Dot product of two vectors of size `n`: the sum of the componentwise products. -/
def xdot {n : Nat} (u v : Fin n → Option ℝ) : Option ℝ :=
  (List.finRange n).foldl (fun acc i => xadd acc (xmul (u i) (v i))) (some 0)

/-- Matrix-vector product: component `i` is the dot product of row `i` with `v`. -/
def xmatvec {n : Nat} (A : Fin n → Fin n → Option ℝ) (v : Fin n → Option ℝ) :
    Fin n → Option ℝ :=
  fun i => xdot (A i) v

/-- The operations of `conjugateGradient` in exact arithmetic on vectors of size `n`;
narrowing to `double` keeps the value. -/
noncomputable def exactOps (n : Nat) :
    Ops (Option ℝ) (Fin n → Option ℝ) (Fin n → Fin n → Option ℝ) (Option ℝ) where
  matvec := xmatvec
  vadd := fun u v i => xadd (u i) (v i)
  vsub := fun u v i => xsub (u i) (v i)
  smul := fun a v i => xmul a (v i)
  dot := xdot
  div := xdiv
  sqrt := xsqrt
  to_double := fun a => a
  lt := xlt

/-- A real vector as a vector of defined exact scalars. -/
def liftV {n : Nat} (v : Fin n → ℝ) : Fin n → Option ℝ := fun i => some (v i)

/-- A real matrix as a matrix of defined exact scalars. -/
def liftM {n : Nat} (A : Matrix (Fin n) (Fin n) ℝ) : Fin n → Fin n → Option ℝ :=
  fun i j => some (A i j)

/-- The operations of `conjugateGradient` on real vectors, every operation total: used
for the runs of `exactOps` in which no operation is undefined. -/
noncomputable def realOps (n : Nat) :
    Ops ℝ (Fin n → ℝ) (Matrix (Fin n) (Fin n) ℝ) ℝ where
  matvec := fun A v => A.mulVec v
  vadd := fun u v => u + v
  vsub := fun u v => u - v
  smul := fun a v => a • v
  dot := fun u v => Matrix.dotProduct u v
  div := fun a c => a / c
  sqrt := Real.sqrt
  to_double := fun a => a
  lt := fun a c => decide (a < c)

/-- A state of the real recurrence as a state of `exactOps`. -/
def liftState {n : Nat} (s : SpecState ℝ (Fin n → ℝ)) :
    SpecState (Option ℝ) (Fin n → Option ℝ) :=
  { x := liftV s.x, r := liftV s.r, p := liftV s.p, rs_old := some s.rs_old }

/-- Symmetric positive definite: `A` equals its transpose and `v·(A v) > 0` for every
non-zero `v`. -/
def IsSPD {n : Nat} (A : Matrix (Fin n) (Fin n) ℝ) : Prop :=
  (∀ i j, A i j = A j i) ∧ ∀ v : Fin n → ℝ, v ≠ 0 → 0 < Matrix.dotProduct v (A.mulVec v)

/-- Residual of the real recurrence after `k` iterations. -/
noncomputable def resid {n : Nat} (A : Matrix (Fin n) (Fin n) ℝ) (b x : Fin n → ℝ)
    (k : Nat) : Fin n → ℝ :=
  (spec_iterate (realOps n) A b x k).r

/-- Search direction of the real recurrence after `k` iterations. -/
noncomputable def dir {n : Nat} (A : Matrix (Fin n) (Fin n) ℝ) (b x : Fin n → ℝ)
    (k : Nat) : Fin n → ℝ :=
  (spec_iterate (realOps n) A b x k).p

/-- The orthogonality relations of the conjugate gradient method up to index `k`:
residuals are mutually orthogonal, directions are mutually `A`-conjugate, each
residual is orthogonal to the earlier directions, and `r_j·p_j = r_j·r_j`. -/
def CGOrth {n : Nat} (A : Matrix (Fin n) (Fin n) ℝ) (b x : Fin n → ℝ) (k : Nat) : Prop :=
  (∀ i j, i < j → j ≤ k → Matrix.dotProduct (resid A b x j) (resid A b x i) = 0) ∧
  (∀ i j, i < j → j ≤ k →
    Matrix.dotProduct (dir A b x j) (A.mulVec (dir A b x i)) = 0) ∧
  (∀ i j, i < j → j ≤ k → Matrix.dotProduct (resid A b x j) (dir A b x i) = 0) ∧
  (∀ j, j ≤ k →
    Matrix.dotProduct (resid A b x j) (dir A b x j)
      = Matrix.dotProduct (resid A b x j) (resid A b x j))

/-! ### The linear system of `src/experiments/main.cpp` -/

/-- The matrix built in `main`: tridiagonal, diagonal `4`, off-diagonal `-1`. -/
def main_A : Matrix (Fin 3) (Fin 3) ℝ := !![4, -1, 0; -1, 4, -1; 0, -1, 4]

/-- The reference solution `x_true = Ones(3)` of `main`. -/
def main_x_true : Fin 3 → ℝ := ![1, 1, 1]

/-- The right-hand side `b = A * x_true` of `main`. -/
def main_b : Fin 3 → ℝ := main_A.mulVec main_x_true

/-- The initial guess `x = Zero(3)` of `main`. -/
def main_x : Fin 3 → ℝ := ![0, 0, 0]

end linear_algebra

/-! ### `QXNumber` comparisons (`include/bailey/qx_arithmetic.hpp`)

A finite `long double` is represented by the rational number it denotes.  The
arithmetic of the format is exact arithmetic followed by the rounding `rnd` of the
format, which is a parameter; `std::abs` and `std::max` are exact. -/

namespace bailey

/-- The struct `QXNumber`: one `long double` limb `qx`. -/
structure QXNumber where
  qx : ℚ
  deriving DecidableEq

/-- The function `std::max(x, y)`, which is `(x < y) ? y : x`. -/
def std_max (x y : ℚ) : ℚ := if x < y then y else x

/-- The constant `QX_EPSILON = 1e-31L`: the literal, rounded to the format. -/
def QX_EPSILON (rnd : ℚ → ℚ) : ℚ := rnd (1 / 10 ^ 31)

/-- The literal `1e-15L`, rounded to the format. -/
def QX_FLOOR (rnd : ℚ → ℚ) : ℚ := rnd (1 / 10 ^ 15)

/-- The operator `operator==` on `QXNumber` (lines 105-115). -/
def operator_eq (rnd : ℚ → ℚ) (a b : QXNumber) : Bool :=
  let diff := |rnd (a.qx - b.qx)|
  let max_val := std_max |a.qx| |b.qx|
  if max_val < QX_FLOOR rnd then
    decide (diff < QX_FLOOR rnd)
  else
    decide (rnd (diff / max_val) < QX_EPSILON rnd)

/-- The operator `operator!=` on `QXNumber` (lines 117-119). -/
def operator_ne (rnd : ℚ → ℚ) (a b : QXNumber) : Bool :=
  !(operator_eq rnd a b)

/-- The operator `operator<` on `QXNumber` (lines 121-124). -/
def operator_lt (rnd : ℚ → ℚ) (a b : QXNumber) : Bool :=
  decide (rnd (b.qx - a.qx) > rnd (QX_EPSILON rnd * std_max |a.qx| |b.qx|))

/-- The operator `operator<=` on `QXNumber` (lines 126-128). -/
def operator_le (rnd : ℚ → ℚ) (a b : QXNumber) : Bool :=
  operator_lt rnd a b || operator_eq rnd a b

/-- The operator `operator>` on `QXNumber` (lines 130-132). -/
def operator_gt (rnd : ℚ → ℚ) (a b : QXNumber) : Bool :=
  operator_lt rnd b a

/-- The operator `operator>=` on `QXNumber` (lines 134-136). -/
def operator_ge (rnd : ℚ → ℚ) (a b : QXNumber) : Bool :=
  operator_gt rnd a b || operator_eq rnd a b

end bailey

namespace linear_algebra

variable {D : Type}

/-! ### `print_num_results` (`conjugate_gradient.hpp`, lines 114-137) -/

/-- What `print_num_results` writes to `std::cout`, formatting aside: the problem name
when it is not empty, the converged flag, the iteration count and the four metrics.  The
elapsed time is not part of the embedding. -/
structure PrintedResults (D : Type) where
  problem : Option String
  is_converged : Bool
  iter_final : Int
  relres_2norm : D
  true_relres_2norm : D
  relerr_2norm : D
  relerr_Anorm : D

/-- The expression `v[i]` for a `std::vector` `v` and an `int` `i`: the index converts to
`size_t`, and `operator[]` has a value only for an index below `v.size()`. -/
def vector_at (v : List D) (i : Int) : Option D :=
  if 0 ≤ i then v[i.toNat]? else none

/-- The function `print_num_results`: it reads `is_converged` and `iter_final` and
indexes the three histories with `iter_final`.  The result is `none` when it reads a
field that was never assigned or indexes a history out of bounds. -/
def print_num_results (results : CGResult D) (problem_name : String) :
    Option (PrintedResults D) := do
  let is_converged ← results.is_converged
  let iter_final ← results.iter_final
  let relres ← vector_at results.hist_relres_2 iter_final
  let relerr_2 ← vector_at results.hist_relerr_2 iter_final
  let relerr_A ← vector_at results.hist_relerr_A iter_final
  pure { problem := if problem_name.isEmpty then none else some problem_name,
         is_converged := is_converged, iter_final := iter_final,
         relres_2norm := relres, true_relres_2norm := results.true_relres_2,
         relerr_2norm := relerr_2, relerr_Anorm := relerr_A }

end linear_algebra

/-! ### The scalar number types (`include/bailey/*_arithmetic.hpp`)

The arithmetic kernels (`ddadd_`, `dqadd_`, `qxadd_`, ...) are Fortran routines outside
the repository: each kind's primitives are a parameter (`Backend`).  A finite `double`
or `long double` is represented by the rational number it denotes. -/

namespace bailey

/-- The primitives of one backend on limb buffers of type `L`: `add a b` is the buffer
`c` that `ddadd_(a, b, c)` (`dqadd_`, `qxadd_`) leaves, likewise `sub`, `mul`, `div`,
`sqrt`; `dqd d` is the buffer `dddqd_(&d, a)` (`dqdqd_`, `qxdqd_`) leaves; `toqd a n cl`
is the text `ddtoqd_(a, &n, c, cl)` (`dqtoqd_`, `qxtoqd_`) leaves in the buffer `c` of
`cl` characters, read as a C string. -/
structure Backend (L : Type) where
  add : L → L → L
  sub : L → L → L
  mul : L → L → L
  div : L → L → L
  sqrt : L → L
  dqd : ℚ → L
  toqd : L → Int → Nat → String

/-- The struct `DDNumber`: the limbs `double dd[2]`, zero by default. -/
structure DDNumber where
  dd : ℚ × ℚ := (0, 0)
  deriving DecidableEq

/-- The struct `DQNumber`: the limbs `long double dq[2]`, zero by default. -/
structure DQNumber where
  dq : ℚ × ℚ := (0, 0)
  deriving DecidableEq

/-- The constructor `DDNumber(double val) { dddqd_(&val, dd); }`. -/
def DDNumber.from_double (be : Backend (ℚ × ℚ)) (val : ℚ) : DDNumber :=
  { dd := be.dqd val }

/-- The constructor `DQNumber(double val) { dqdqd_(&val, dq); }`. -/
def DQNumber.from_double (be : Backend (ℚ × ℚ)) (val : ℚ) : DQNumber :=
  { dq := be.dqd val }

/-- The constructor `QXNumber(double val) : qx(static_cast<long double>(val)) {}`: the
conversion from `double` to `long double` keeps the value. -/
def QXNumber.from_double (val : ℚ) : QXNumber :=
  { qx := val }

/-- The operator `operator+` on `DDNumber`: `DDNumber r; ddadd_(a.dd, b.dd, r.dd);`. -/
def DDNumber.operator_add (be : Backend (ℚ × ℚ)) (a b : DDNumber) : DDNumber :=
  { dd := be.add a.dd b.dd }

/-- The operator `operator-` on `DDNumber`: `ddsub_(a.dd, b.dd, r.dd)`. -/
def DDNumber.operator_sub (be : Backend (ℚ × ℚ)) (a b : DDNumber) : DDNumber :=
  { dd := be.sub a.dd b.dd }

/-- The operator `operator*` on `DDNumber`: `ddmul_(a.dd, b.dd, r.dd)`. -/
def DDNumber.operator_mul (be : Backend (ℚ × ℚ)) (a b : DDNumber) : DDNumber :=
  { dd := be.mul a.dd b.dd }

/-- The operator `operator/` on `DDNumber`: `dddiv_(a.dd, b.dd, r.dd)`. -/
def DDNumber.operator_div (be : Backend (ℚ × ℚ)) (a b : DDNumber) : DDNumber :=
  { dd := be.div a.dd b.dd }

/-- The function `sqrt` on `DDNumber`: `ddsqrt_(a.dd, r.dd)`. -/
def DDNumber.sqrt (be : Backend (ℚ × ℚ)) (a : DDNumber) : DDNumber :=
  { dd := be.sqrt a.dd }

/-- The operator `operator+` on `DQNumber`: `DQNumber r; dqadd_(a.dq, b.dq, r.dq);`. -/
def DQNumber.operator_add (be : Backend (ℚ × ℚ)) (a b : DQNumber) : DQNumber :=
  { dq := be.add a.dq b.dq }

/-- The operator `operator-` on `DQNumber`: `dqsub_(a.dq, b.dq, r.dq)`. -/
def DQNumber.operator_sub (be : Backend (ℚ × ℚ)) (a b : DQNumber) : DQNumber :=
  { dq := be.sub a.dq b.dq }

/-- The operator `operator*` on `DQNumber`: `dqmul_(a.dq, b.dq, r.dq)`. -/
def DQNumber.operator_mul (be : Backend (ℚ × ℚ)) (a b : DQNumber) : DQNumber :=
  { dq := be.mul a.dq b.dq }

/-- The operator `operator/` on `DQNumber`: `dqdiv_(a.dq, b.dq, r.dq)`. -/
def DQNumber.operator_div (be : Backend (ℚ × ℚ)) (a b : DQNumber) : DQNumber :=
  { dq := be.div a.dq b.dq }

/-- The function `sqrt` on `DQNumber`: `dqsqrt_(a.dq, r.dq)`. -/
def DQNumber.sqrt (be : Backend (ℚ × ℚ)) (a : DQNumber) : DQNumber :=
  { dq := be.sqrt a.dq }

/-- The operator `operator+` on `QXNumber`:
`qxadd_(a.get_qx_ptr(), b.get_qx_ptr(), result.get_qx_ptr())`. -/
def QXNumber.operator_add (be : Backend ℚ) (a b : QXNumber) : QXNumber :=
  { qx := be.add a.qx b.qx }

/-- The operator `operator-` on `QXNumber`: `qxsub_` on the limbs of `a` and `b`. -/
def QXNumber.operator_sub (be : Backend ℚ) (a b : QXNumber) : QXNumber :=
  { qx := be.sub a.qx b.qx }

/-- The operator `operator*` on `QXNumber`: `qxmul_` on the limbs of `a` and `b`. -/
def QXNumber.operator_mul (be : Backend ℚ) (a b : QXNumber) : QXNumber :=
  { qx := be.mul a.qx b.qx }

/-- The operator `operator/` on `QXNumber`: `qxdiv_` on the limbs of `a` and `b`. -/
def QXNumber.operator_div (be : Backend ℚ) (a b : QXNumber) : QXNumber :=
  { qx := be.div a.qx b.qx }

/-- The function `sqrt` on `QXNumber`: `qxsqrt_(a.get_qx_ptr(), result.get_qx_ptr())`. -/
def QXNumber.sqrt (be : Backend ℚ) (a : QXNumber) : QXNumber :=
  { qx := be.sqrt a.qx }

/-- The function `to_double` on `DDNumber` (lines 75-84): `ddtoqd_` with `d = 32` into
`char s[80]`, then `std::stod(s)`; `stod` is `none` when `std::stod` throws, and the
handler returns `a.dd[0]`. -/
def DDNumber.to_double (be : Backend (ℚ × ℚ)) (stod : String → Option ℚ) (a : DDNumber) :
    ℚ :=
  let s := be.toqd a.dd 32 80
  match stod s with
  | some v => v
  | none => a.dd.1

/-- The function `to_double` on `DQNumber` (lines 75-84): `dqtoqd_` with `d = 64` into
`char s[128]`, then `std::stod(s)`; the handler returns `a.dq[0]`, which the return type
converts from `long double` to `double` (`narrow`). -/
def DQNumber.to_double (be : Backend (ℚ × ℚ)) (stod : String → Option ℚ) (narrow : ℚ → ℚ)
    (a : DQNumber) : ℚ :=
  let s := be.toqd a.dq 64 128
  match stod s with
  | some v => v
  | none => narrow a.dq.1

/-- The function `to_double` on `QXNumber` (lines 156-165): `qxtoqd_` with `d = 33` into
`char s[128]`, then `std::stod(s)`; the handler returns `static_cast<double>(a.qx)`. -/
def QXNumber.to_double (be : Backend ℚ) (stod : String → Option ℚ) (narrow : ℚ → ℚ)
    (a : QXNumber) : ℚ :=
  let s := be.toqd a.qx 33 128
  match stod s with
  | some v => v
  | none => narrow a.qx

/-- A backend for `QXNumber` whose conversion leaves a buffer that denotes the
`long double` zero and whose arithmetic is exact.  (A buffer holding the IEEE binary128
encoding of `2.0` is such a buffer where `long double` is the 80-bit x87 format: its
first ten bytes are zero.) -/
def zero_dqd_backend : Backend ℚ where
  add := fun a b => a + b
  sub := fun a b => a - b
  mul := fun a b => a * b
  div := fun a b => a / b
  sqrt := fun a => a
  dqd := fun _ => 0
  toqd := fun _ _ _ => ""

/-- A backend for `DDNumber` and `DQNumber` that keeps the leading limb only, with exact
arithmetic on it and an empty text. -/
def leading_limb_backend : Backend (ℚ × ℚ) where
  add := fun a b => (a.1 + b.1, 0)
  sub := fun a b => (a.1 - b.1, 0)
  mul := fun a b => (a.1 * b.1, 0)
  div := fun a b => (a.1 / b.1, 0)
  sqrt := fun a => a
  dqd := fun d => (d, 0)
  toqd := fun _ _ _ => ""

end bailey

/-! ### The Matrix Market loader (`include/matrix_io/matrix_market.hpp`) -/

namespace matrix_io

/-- The dimensions of `fast_matrix_market::matrix_market_header`, which that library
declares as `int64_t`. -/
structure matrix_market_header where
  nrows : Int
  ncols : Int
  deriving DecidableEq

/-- What opening and reading the file gives: the stream does not open, or
`read_matrix_market_triplet` throws, or it fills the header and the vectors `rows`,
`cols`, `values`, which have the same length and are kept as one list of entries
`(rows[i], cols[i], values[i])`, indices zero-based. -/
inductive FileContent where
  | cannot_open
  | read_throws (what : String)
  | triplets (header : matrix_market_header) (entries : List (Int × Int × ℚ))

/-- The causes of the `std::runtime_error` that `loadMatrixMarket` throws; every one
reaches the caller with the text `Matrix Market read error: ...`. -/
inductive LoadError where
  | cannot_open
  | read_throws (what : String)
  | index_out_of_bounds (row col : Int) (nrows ncols : Int)
  deriving DecidableEq

/-- An element of `std::vector<Eigen::Triplet<T>>`. -/
structure Triplet (T : Type) where
  row : Int
  col : Int
  value : T

/-- The matrix `Eigen::SparseMatrix<T> mat(header.nrows, header.ncols)` after
`mat.setFromTriplets(...)`: its dimensions and the triplets it was set from. -/
structure SparseMatrix (T : Type) where
  rows : Int
  cols : Int
  triplets : List (Triplet T)

/-- The conversion `static_cast<int>(z)` of an `int64_t`: the value modulo `2^32`, in
the range of `int`. -/
def static_cast_int (z : Int) : Int :=
  (z + 2 ^ 31) % 2 ^ 32 - 2 ^ 31

/-- The loop of lines 37-52: each entry is range-checked against the header dimensions
converted to `int`, and appended to `triplets` with its value converted by `T(value)`
(`conv`); the first entry that fails the check throws. -/
def loadTriplets {T : Type} (conv : ℚ → T) (header : matrix_market_header) :
    List (Int × Int × ℚ) → Except LoadError (List (Triplet T))
  | [] => Except.ok []
  | (row, col, value) :: rest =>
    if row < 0 ∨ row ≥ static_cast_int header.nrows ∨
        col < 0 ∨ col ≥ static_cast_int header.ncols then
      Except.error (LoadError.index_out_of_bounds row col header.nrows header.ncols)
    else
      match loadTriplets conv header rest with
      | Except.ok triplets => Except.ok ({ row := row, col := col, value := conv value } :: triplets)
      | Except.error e => Except.error e

/-- The function `loadMatrixMarket<T>` (lines 16-60). -/
def loadMatrixMarket {T : Type} (conv : ℚ → T) (file : FileContent) :
    Except LoadError (SparseMatrix T) :=
  match file with
  | FileContent.cannot_open => Except.error LoadError.cannot_open
  | FileContent.read_throws what => Except.error (LoadError.read_throws what)
  | FileContent.triplets header entries =>
    match loadTriplets conv header entries with
    | Except.ok triplets =>
      Except.ok { rows := header.nrows, cols := header.ncols, triplets := triplets }
    | Except.error e => Except.error e

end matrix_io

/-! ### The exporter (`include/io/mat_exporter_impl.hpp`) -/

namespace io

/-- The function `MatExporter::get_precision_digits` (lines 114-120). -/
def MatExporter.get_precision_digits (precision_name : String) : Int :=
  if precision_name = "double" then 15
  else if precision_name = "dd" then 30
  else if precision_name = "dq" then 66
  else if precision_name = "qx" then 33
  else 15

end io

namespace linear_algebra

variable {T V M D : Type}

/-! ## Theorems -/

theorem spec_run_zero (ops : Ops T V M D) (A : M) (b x0 : V) (tol : D) (i : Nat) :
    spec_run ops A b x0 tol 0 i = i := rfl

theorem spec_run_ge (ops : Ops T V M D) (A : M) (b x0 : V) (tol : D) (f i : Nat) :
    i ≤ spec_run ops A b x0 tol f i := by
  induction f generalizing i with
  | zero => simp [spec_run]
  | succ f ih =>
    unfold spec_run
    split
    · omega
    · have := ih (i + 1); omega

theorem spec_run_le (ops : Ops T V M D) (A : M) (b x0 : V) (tol : D) (f i : Nat) :
    spec_run ops A b x0 tol f i ≤ i + f := by
  induction f generalizing i with
  | zero => simp [spec_run]
  | succ f ih =>
    unfold spec_run
    split
    · omega
    · have := ih (i + 1); omega

theorem spec_run_gt (ops : Ops T V M D) (A : M) (b x0 : V) (tol : D) (f i : Nat) :
    i < spec_run ops A b x0 tol (f + 1) i := by
  unfold spec_run
  split
  · omega
  · have := spec_run_ge ops A b x0 tol f (i + 1); omega

/-- When the specified loop stops before using all its iterations, the state it stops in
passes the convergence test. -/
theorem spec_run_stop (ops : Ops T V M D) (A : M) (b x0 : V) (tol : D) (f i : Nat)
    (h : spec_run ops A b x0 tol f i < i + f) :
    spec_converged ops tol (spec_iterate ops A b x0 (spec_run ops A b x0 tol f i)) = true := by
  induction f generalizing i with
  | zero => simp [spec_run] at h
  | succ f ih =>
    unfold spec_run at h ⊢
    split
    · assumption
    · rename_i hc
      rw [if_neg hc] at h
      exact ih (i + 1) (by omega)

/-- No state strictly before the one the specified loop stops in passes the test. -/
theorem spec_run_before (ops : Ops T V M D) (A : M) (b x0 : V) (tol : D) (f i j : Nat)
    (hij : i < j) (hj : j < spec_run ops A b x0 tol f i) :
    spec_converged ops tol (spec_iterate ops A b x0 j) = false := by
  induction f generalizing i with
  | zero => simp [spec_run] at hj; omega
  | succ f ih =>
    unfold spec_run at hj
    split at hj
    · omega
    · rename_i hc
      by_cases hji : j = i + 1
      · subst hji; simpa using hc
      · exact ih (i + 1) (by omega) hj

/-- If the first state after `i` that passes the test is state `m`, the specified loop
stops there. -/
theorem spec_run_first (ops : Ops T V M D) (A : M) (b x0 : V) (tol : D) (f i m : Nat)
    (him : i < m) (hmf : m ≤ i + f)
    (hbefore : ∀ j, i < j → j < m → spec_converged ops tol (spec_iterate ops A b x0 j) = false)
    (hm : spec_converged ops tol (spec_iterate ops A b x0 m) = true) :
    spec_run ops A b x0 tol f i = m := by
  induction f generalizing i with
  | zero => omega
  | succ f ih =>
    unfold spec_run
    by_cases hmi : m = i + 1
    · subst hmi; rw [if_pos hm]
    · have hc := hbefore (i + 1) (by omega) (by omega)
      rw [if_neg (by simp [hc])]
      exact ih (i + 1) (by omega) (by omega) (fun j h1 h2 => hbefore j (by omega) h2)

/-- If no state after `i` passes the test, the specified loop uses all its iterations. -/
theorem spec_run_none (ops : Ops T V M D) (A : M) (b x0 : V) (tol : D) (f i : Nat)
    (hnone : ∀ j, i < j → j ≤ i + f →
      spec_converged ops tol (spec_iterate ops A b x0 j) = false) :
    spec_run ops A b x0 tol f i = i + f := by
  induction f generalizing i with
  | zero => rfl
  | succ f ih =>
    unfold spec_run
    have hc := hnone (i + 1) (by omega) (by omega)
    rw [if_neg (by simp [hc]), ih (i + 1) (fun j h1 h2 => hnone j (by omega) (by omega))]
    omega

theorem map_range_succ {α : Type} (g : Nat → α) (i : Nat) :
    (List.range (i + 1)).map g ++ [g (i + 1)] = (List.range (i + 1 + 1)).map g := by
  rw [List.range_succ (n := i + 1), List.map_append]
  rfl

/-- Unfolding of one pass through the loop body. -/
theorem cgLoop_succ (ops : Ops T V M D) (A : M) (b x_true : V) (max_iter : Int) (tol : D)
    (f : Nat) (k : Int) (s : CGLoop T V D) (hk : k < max_iter) :
    cgLoop ops A x_true (ops.sqrt (ops.dot b b)) (ops.sqrt (ops.dot x_true x_true))
        max_iter tol (f + 1) k s
      = if spec_converged ops tol (spec_step ops A s.toSpec) = true then
          { x := (spec_step ops A s.toSpec).x, r := (spec_step ops A s.toSpec).r,
            p := s.p, rs_old := s.rs_old,
            iter_final := some (k + 1), is_converged := some true,
            hist_relres_2 :=
              s.hist_relres_2 ++ [spec_relres_2 ops b (spec_step ops A s.toSpec)],
            hist_relerr_2 :=
              s.hist_relerr_2 ++ [spec_relerr_2 ops x_true (spec_step ops A s.toSpec)],
            hist_relerr_A :=
              s.hist_relerr_A ++ [spec_relerr_A ops A x_true (spec_step ops A s.toSpec)] }
        else
          cgLoop ops A x_true (ops.sqrt (ops.dot b b)) (ops.sqrt (ops.dot x_true x_true))
            max_iter tol f (k + 1)
            { x := (spec_step ops A s.toSpec).x, r := (spec_step ops A s.toSpec).r,
              p := (spec_step ops A s.toSpec).p, rs_old := (spec_step ops A s.toSpec).rs_old,
              iter_final := if decide (k = max_iter - 1) then some max_iter else s.iter_final,
              is_converged := if decide (k = max_iter - 1) then some false else s.is_converged,
              hist_relres_2 :=
                s.hist_relres_2 ++ [spec_relres_2 ops b (spec_step ops A s.toSpec)],
              hist_relerr_2 :=
                s.hist_relerr_2 ++ [spec_relerr_2 ops x_true (spec_step ops A s.toSpec)],
              hist_relerr_A :=
                s.hist_relerr_A ++ [spec_relerr_A ops A x_true (spec_step ops A s.toSpec)] } := by
  rw [cgLoop, if_pos hk]
  rfl

/-- The loop, entered in a state that agrees with the specification after `i` iterations
and with `f + 1` iterations still allowed, exits as the specified loop does. -/
theorem cgLoop_spec (ops : Ops T V M D) (A : M) (b x0 x_true : V) (max_iter : Int) (tol : D)
    (f i : Nat) (s : CGLoop T V D) (hs : LoopAt ops A b x0 x_true s i)
    (hk : max_iter = (i : Int) + (f + 1 : Nat)) :
    LoopExit ops A b x0 x_true max_iter tol
      (cgLoop ops A x_true (ops.sqrt (ops.dot b b)) (ops.sqrt (ops.dot x_true x_true))
        max_iter tol (f + 1) i s)
      (spec_run ops A b x0 tol (f + 1) i) := by
  induction f generalizing i s with
  | zero =>
    obtain ⟨h1, h5, h6, h7⟩ := hs
    have hstep : spec_step ops A s.toSpec = spec_iterate ops A b x0 (i + 1) := by
      rw [h1]; rfl
    have hlast : (i : Int) = max_iter - 1 := by rw [hk]; push_cast; ring
    rw [cgLoop_succ _ _ _ _ _ _ _ _ _ (by omega), hstep]
    have hrun : spec_run ops A b x0 tol (0 + 1) i = i + 1 := by
      unfold spec_run; split <;> rfl
    rw [hrun]
    by_cases hc : spec_converged ops tol (spec_iterate ops A b x0 (i + 1)) = true
    · rw [if_pos hc]
      refine ⟨rfl, rfl, ?_, ?_, ?_, ?_, ?_⟩
      · rw [← map_range_succ, ← h5]
      · rw [← map_range_succ, ← h6]
      · rw [← map_range_succ, ← h7]
      · intro _
        refine ⟨by push_cast; rfl, rfl, ?_, ?_⟩
        · show s.toSpec.p = _
          rw [h1]; rfl
        · show s.toSpec.rs_old = _
          rw [h1]; rfl
      · intro h; rw [hc] at h; exact absurd h (by simp)
    · rw [if_neg hc]
      refine ⟨rfl, rfl, ?_, ?_, ?_, ?_, ?_⟩
      · show s.hist_relres_2 ++ _ = _
        rw [← map_range_succ, ← h5]
      · show s.hist_relerr_2 ++ _ = _
        rw [← map_range_succ, ← h6]
      · show s.hist_relerr_A ++ _ = _
        rw [← map_range_succ, ← h7]
      · intro h; exact absurd h hc
      · intro _
        refine ⟨?_, ?_, rfl, rfl⟩
        · show (if decide ((i : Int) = max_iter - 1) then some max_iter else s.iter_final) = _
          simp [hlast]
        · show (if decide ((i : Int) = max_iter - 1) then some false else s.is_converged) = _
          simp [hlast]
  | succ f ih =>
    obtain ⟨h1, h5, h6, h7⟩ := hs
    have hstep : spec_step ops A s.toSpec = spec_iterate ops A b x0 (i + 1) := by
      rw [h1]; rfl
    rw [cgLoop_succ _ _ _ _ _ _ _ _ _ (by omega), hstep]
    by_cases hc : spec_converged ops tol (spec_iterate ops A b x0 (i + 1)) = true
    · have hrun : spec_run ops A b x0 tol (f + 1 + 1) i = i + 1 := by
        unfold spec_run; rw [if_pos hc]
      rw [hrun, if_pos hc]
      refine ⟨rfl, rfl, ?_, ?_, ?_, ?_, ?_⟩
      · rw [← map_range_succ, ← h5]
      · rw [← map_range_succ, ← h6]
      · rw [← map_range_succ, ← h7]
      · intro _
        refine ⟨by push_cast; rfl, rfl, ?_, ?_⟩
        · show s.toSpec.p = _
          rw [h1]; rfl
        · show s.toSpec.rs_old = _
          rw [h1]; rfl
      · intro h; rw [hc] at h; exact absurd h (by simp)
    · have hrun : spec_run ops A b x0 tol (f + 1 + 1) i
          = spec_run ops A b x0 tol (f + 1) (i + 1) := by
        conv_lhs => unfold spec_run
        rw [if_neg hc]
      rw [hrun, if_neg hc]
      have hcast : (i : Int) + 1 = ((i + 1 : Nat) : Int) := by push_cast; rfl
      rw [hcast]
      apply ih
      · refine ⟨rfl, ?_, ?_, ?_⟩
        · show s.hist_relres_2 ++ _ = _
          rw [← map_range_succ, ← h5]
        · show s.hist_relerr_2 ++ _ = _
          rw [← map_range_succ, ← h6]
        · show s.hist_relerr_A ++ _ = _
          rw [← map_range_succ, ← h7]
      · rw [hk]; push_cast; ring

theorem cgStart_loopAt (ops : Ops T V M D) (A : M) (b x x_true : V) :
    LoopAt ops A b x x_true (cgStart ops A b x x_true) 0 :=
  ⟨rfl, rfl, rfl, rfl⟩

/-- With `max_iter ≤ 0` the loop body is not entered. -/
theorem cgRun_nonpos (ops : Ops T V M D) (A : M) (b x x_true : V) (max_iter : Int) (tol : D)
    (h : max_iter ≤ 0) :
    cgRun ops A b x x_true max_iter tol = cgStart ops A b x x_true := by
  have h0 : max_iter.toNat = 0 := by omega
  unfold cgRun
  rw [h0]
  rfl

/-- With `max_iter ≥ 1` the loop exits as the specified loop does. -/
theorem cgRun_pos (ops : Ops T V M D) (A : M) (b x x_true : V) (max_iter : Int) (tol : D)
    (h : 1 ≤ max_iter) :
    LoopExit ops A b x x_true max_iter tol (cgRun ops A b x x_true max_iter tol)
      (spec_run ops A b x tol max_iter.toNat 0) := by
  obtain ⟨f, hf⟩ : ∃ f : Nat, max_iter.toNat = f + 1 := ⟨max_iter.toNat - 1, by omega⟩
  unfold cgRun
  rw [hf]
  have := cgLoop_spec ops A b x x_true max_iter tol f 0 (cgStart ops A b x x_true)
    (cgStart_loopAt ops A b x x_true) (by omega)
  simpa using this

/-- A call whose `reserve` requests are valid returns the fields the loop left, the
recomputed true residual, and the loop's final `x`. -/
theorem conjugateGradient_ok (ops : Ops T V M D) (A : M) (b x x_true : V) (max_iter : Int)
    (tol : D) (h : -1 ≤ max_iter) :
    conjugateGradient ops A b x x_true max_iter tol
      = Except.ok
          ({ iter_final := (cgRun ops A b x x_true max_iter tol).iter_final,
             is_converged := (cgRun ops A b x x_true max_iter tol).is_converged,
             hist_relres_2 := (cgRun ops A b x x_true max_iter tol).hist_relres_2,
             true_relres_2 :=
               ops.to_double (ops.div
                 (ops.sqrt (ops.dot
                   (ops.vsub (ops.matvec A (cgRun ops A b x x_true max_iter tol).x) b)
                   (ops.vsub (ops.matvec A (cgRun ops A b x x_true max_iter tol).x) b)))
                 (ops.sqrt (ops.dot b b))),
             hist_relerr_2 := (cgRun ops A b x x_true max_iter tol).hist_relerr_2,
             hist_relerr_A := (cgRun ops A b x x_true max_iter tol).hist_relerr_A },
           (cgRun ops A b x x_true max_iter tol).x) := by
  unfold conjugateGradient
  rw [if_neg (by omega)]

/-- A call throws exactly when `max_iter < -1`, so `-1 ≤ max_iter` characterises the
calls that return. -/
theorem conjugateGradient_throws_iff (ops : Ops T V M D) (A : M) (b x x_true : V)
    (max_iter : Int) (tol : D) :
    conjugateGradient ops A b x x_true max_iter tol = Except.error CGError.length_error
      ↔ max_iter < -1 := by
  unfold conjugateGradient
  split
  · simp; omega
  · simp; omega

/-- For `max_iter ≥ 1` the three histories have the same length and that length is
`iter_final + 1`. -/
theorem conjugateGradient_hist_length (ops : Ops T V M D) (A : M) (b x x_true : V)
    (max_iter : Int) (tol : D) (h : 1 ≤ max_iter) :
    ∃ res xf, ∃ n : Nat,
      conjugateGradient ops A b x x_true max_iter tol = Except.ok (res, xf) ∧
      res.iter_final = some (n : Int) ∧ res.hist_relres_2.length = n + 1 ∧
      res.hist_relerr_2.length = n + 1 ∧ res.hist_relerr_A.length = n + 1 := by
  obtain ⟨hx, hr, h1, h2, h3, hT, hF⟩ := cgRun_pos ops A b x x_true max_iter tol h
  refine ⟨_, _, spec_run ops A b x tol max_iter.toNat 0,
    conjugateGradient_ok ops A b x x_true max_iter tol (by omega), ?_, ?_, ?_, ?_⟩
  · show (cgRun ops A b x x_true max_iter tol).iter_final = _
    cases hc : spec_converged ops tol
        (spec_iterate ops A b x (spec_run ops A b x tol max_iter.toNat 0))
    · have hm : spec_run ops A b x tol max_iter.toNat 0 = 0 + max_iter.toNat := by
        by_contra hne
        have hle := spec_run_le ops A b x tol max_iter.toNat 0
        have := spec_run_stop ops A b x tol max_iter.toNat 0 (by omega)
        rw [hc] at this
        exact absurd this (by simp)
      rw [(hF hc).1, hm]
      congr 1
      omega
    · exact (hT hc).1
  · show (cgRun ops A b x x_true max_iter tol).hist_relres_2.length = _
    rw [h1]; simp
  · show (cgRun ops A b x x_true max_iter tol).hist_relerr_2.length = _
    rw [h2]; simp
  · show (cgRun ops A b x x_true max_iter tol).hist_relerr_A.length = _
    rw [h3]; simp

/-- C1 (at the failing input `max_iter = 0`): the call returns, leaves `x` unchanged,
each history holds exactly the pre-loop entry, and neither `iter_final` nor
`is_converged` has been assigned, so the history length is not tied to `iter_final`. -/
theorem conjugateGradient_zero_max_iter (ops : Ops T V M D) (A : M) (b x x_true : V)
    (tol : D) :
    ∃ res, conjugateGradient ops A b x x_true 0 tol = Except.ok (res, x) ∧
      res.hist_relres_2.length = 1 ∧ res.hist_relerr_2.length = 1 ∧
      res.hist_relerr_A.length = 1 ∧ res.iter_final = none ∧ res.is_converged = none :=
  ⟨_, rfl, rfl, rfl, rfl, rfl, rfl⟩

/-- If state `k + 1` is the first to pass the convergence test and `k < max_iter`, the
call stops there. -/
theorem conjugateGradient_stops_at (ops : Ops T V M D) (A : M) (b x x_true : V)
    (max_iter : Int) (tol : D) (k : Nat) (hk : (k : Int) < max_iter)
    (hbefore : ∀ j, j < k → spec_converged ops tol (spec_iterate ops A b x (j + 1)) = false)
    (hconv : spec_converged ops tol (spec_iterate ops A b x (k + 1)) = true) :
    ∃ res, conjugateGradient ops A b x x_true max_iter tol
        = Except.ok (res, (spec_iterate ops A b x (k + 1)).x) ∧
      res.is_converged = some true ∧ res.iter_final = some ((k : Int) + 1) ∧
      res.hist_relres_2.length = k + 2 ∧ res.hist_relerr_2.length = k + 2 ∧
      res.hist_relerr_A.length = k + 2 := by
  obtain ⟨hx, hr, l1, l2, l3, hT, hF⟩ := cgRun_pos ops A b x x_true max_iter tol (by omega)
  have hrun : spec_run ops A b x tol max_iter.toNat 0 = k + 1 :=
    spec_run_first ops A b x tol max_iter.toNat 0 (k + 1) (by omega) (by omega)
      (fun j hj1 hj2 => by
        obtain ⟨j, rfl⟩ : ∃ j', j = j' + 1 := ⟨j - 1, by omega⟩
        exact hbefore j (by omega)) hconv
  rw [hrun] at hx l1 l2 l3 hT
  rw [← hx]
  refine ⟨_, conjugateGradient_ok ops A b x x_true max_iter tol (by omega), ?_, ?_, ?_, ?_, ?_⟩
  · exact (hT hconv).2.1
  · have := (hT hconv).1
    rw [Nat.cast_succ] at this
    exact this
  · show (cgRun ops A b x x_true max_iter tol).hist_relres_2.length = _
    rw [l1]; simp
  · show (cgRun ops A b x x_true max_iter tol).hist_relerr_2.length = _
    rw [l2]; simp
  · show (cgRun ops A b x x_true max_iter tol).hist_relerr_A.length = _
    rw [l3]; simp

/-- If no state `1 .. max_iter` passes the convergence test, the call runs `max_iter`
iterations and reports no convergence. -/
theorem conjugateGradient_exhausts (ops : Ops T V M D) (A : M) (b x x_true : V)
    (max_iter : Nat) (tol : D) (h1 : 1 ≤ max_iter)
    (hnone : ∀ k, k < max_iter →
      spec_converged ops tol (spec_iterate ops A b x (k + 1)) = false) :
    ∃ res, conjugateGradient ops A b x x_true (max_iter : Int) tol
        = Except.ok (res, (spec_iterate ops A b x max_iter).x) ∧
      res.is_converged = some false ∧ res.iter_final = some (max_iter : Int) ∧
      res.hist_relres_2.length = max_iter + 1 ∧ res.hist_relerr_2.length = max_iter + 1 ∧
      res.hist_relerr_A.length = max_iter + 1 := by
  obtain ⟨hx, hr, l1, l2, l3, hT, hF⟩ :=
    cgRun_pos ops A b x x_true (max_iter : Int) tol (by omega)
  have hrun : spec_run ops A b x tol (max_iter : Int).toNat 0 = max_iter := by
    rw [Int.toNat_ofNat, spec_run_none ops A b x tol max_iter 0
      (fun j hj1 hj2 => by
        obtain ⟨j, rfl⟩ : ∃ j', j = j' + 1 := ⟨j - 1, by omega⟩
        exact hnone j (by omega))]
    omega
  rw [hrun] at hx l1 l2 l3 hF
  have hc : spec_converged ops tol (spec_iterate ops A b x max_iter) = false := by
    obtain ⟨j, rfl⟩ : ∃ j', max_iter = j' + 1 := ⟨max_iter - 1, by omega⟩
    exact hnone j (by omega)
  rw [← hx]
  refine ⟨_, conjugateGradient_ok ops A b x x_true (max_iter : Int) tol (by omega),
    ?_, ?_, ?_, ?_, ?_⟩
  · exact (hF hc).2.1
  · exact (hF hc).1
  · show (cgRun ops A b x x_true (max_iter : Int) tol).hist_relres_2.length = _
    rw [l1]; simp
  · show (cgRun ops A b x x_true (max_iter : Int) tol).hist_relerr_2.length = _
    rw [l2]; simp
  · show (cgRun ops A b x x_true (max_iter : Int) tol).hist_relerr_A.length = _
    rw [l3]; simp

/-- If the call reports `is_converged = true` with `iter_final = m`, state `m` passes
the convergence test. -/
theorem conjugateGradient_converged_passes (ops : Ops T V M D) (A : M) (b x x_true : V)
    (max_iter : Int) (tol : D) (m : Nat)
    (hconv : (cgRun ops A b x x_true max_iter tol).is_converged = some true)
    (hfin : (cgRun ops A b x x_true max_iter tol).iter_final = some (m : Int)) :
    spec_converged ops tol (spec_iterate ops A b x m) = true := by
  rcases le_or_lt max_iter 0 with h | h
  · rw [cgRun_nonpos ops A b x x_true max_iter tol h] at hconv
    exact absurd hconv (by simp [cgStart])
  · obtain ⟨hx, hr, l1, l2, l3, hT, hF⟩ := cgRun_pos ops A b x x_true max_iter tol (by omega)
    cases hc : spec_converged ops tol
        (spec_iterate ops A b x (spec_run ops A b x tol max_iter.toNat 0))
    · rw [(hF hc).2.1] at hconv
      exact absurd hconv (by simp)
    · rw [(hT hc).1] at hfin
      have hm : spec_run ops A b x tol max_iter.toNat 0 = m := by
        have := Option.some.inj hfin
        omega
      rw [hm] at hc
      exact hc

/-- C2: if iteration `k < max_iter` is the first whose narrowed residual norm
`to_double(sqrt(rs_new))` is below `tolerance`, the call returns `is_converged = true`,
`iter_final = k + 1`, histories of `k + 2` entries and the iterate after `k + 1`
updates; and, `<` on `double` being irreflexive, an iteration `k` whose narrowed
residual norm equals `tolerance` does not produce the result
`is_converged = true, iter_final = k + 1`. -/
theorem conjugateGradient_first_convergence (ops : Ops T V M D) (A : M) (b x x_true : V)
    (max_iter : Int) (tol : D) (k : Nat) (hk : (k : Int) < max_iter) :
    ((∀ j, j < k →
        ops.lt (ops.to_double (ops.sqrt (spec_iterate ops A b x (j + 1)).rs_old)) tol
          = false) →
      ops.lt (ops.to_double (ops.sqrt (spec_iterate ops A b x (k + 1)).rs_old)) tol = true →
      ∃ res, conjugateGradient ops A b x x_true max_iter tol
          = Except.ok (res, (spec_iterate ops A b x (k + 1)).x) ∧
        res.is_converged = some true ∧ res.iter_final = some ((k : Int) + 1) ∧
        res.hist_relres_2.length = k + 2 ∧ res.hist_relerr_2.length = k + 2 ∧
        res.hist_relerr_A.length = k + 2) ∧
    ((∀ d, ops.lt d d = false) →
      ops.to_double (ops.sqrt (spec_iterate ops A b x (k + 1)).rs_old) = tol →
      ∃ res xf, conjugateGradient ops A b x x_true max_iter tol = Except.ok (res, xf) ∧
        ¬ (res.is_converged = some true ∧ res.iter_final = some ((k : Int) + 1))) := by
  constructor
  · intro hbefore hconv
    exact conjugateGradient_stops_at ops A b x x_true max_iter tol k hk hbefore hconv
  · intro hirr heq
    refine ⟨_, _, conjugateGradient_ok ops A b x x_true max_iter tol (by omega), ?_⟩
    rintro ⟨hconv, hfin⟩
    have hfin2 : (cgRun ops A b x x_true max_iter tol).iter_final
        = some ((k + 1 : Nat) : Int) := by
      rw [Nat.cast_succ]; exact hfin
    have hc := conjugateGradient_converged_passes ops A b x x_true max_iter tol (k + 1)
      hconv hfin2
    have : ops.lt (ops.to_double (ops.sqrt (spec_iterate ops A b x (k + 1)).rs_old)) tol
        = true := hc
    rw [heq, hirr] at this
    exact absurd this (by simp)

/-- C3: for `max_iter ≥ 1`, when the test `to_double(sqrt(rs_new)) < tolerance` fails at
every iteration `0 .. max_iter - 1`, the call returns `is_converged = false`,
`iter_final = max_iter`, histories of `max_iter + 1` entries and the iterate after
`max_iter` updates. -/
theorem conjugateGradient_not_converged (ops : Ops T V M D) (A : M) (b x x_true : V)
    (max_iter : Nat) (tol : D) (h1 : 1 ≤ max_iter)
    (hnone : ∀ k, k < max_iter →
      ops.lt (ops.to_double (ops.sqrt (spec_iterate ops A b x (k + 1)).rs_old)) tol = false) :
    ∃ res, conjugateGradient ops A b x x_true (max_iter : Int) tol
        = Except.ok (res, (spec_iterate ops A b x max_iter).x) ∧
      res.is_converged = some false ∧ res.iter_final = some (max_iter : Int) ∧
      res.hist_relres_2.length = max_iter + 1 ∧ res.hist_relerr_2.length = max_iter + 1 ∧
      res.hist_relerr_A.length = max_iter + 1 :=
  conjugateGradient_exhausts ops A b x x_true max_iter tol h1 hnone

/-- The state in which the loop exits, for every `max_iter`: it is the specified state
after `m` iterations, where `m` is the number of iterations executed. -/
theorem cgRun_general (ops : Ops T V M D) (A : M) (b x x_true : V) (max_iter : Int)
    (tol : D) :
    ∃ m : Nat, (m : Int) ≤ max max_iter 0 ∧
      (cgRun ops A b x x_true max_iter tol).x = (spec_iterate ops A b x m).x ∧
      (cgRun ops A b x x_true max_iter tol).r = (spec_iterate ops A b x m).r ∧
      (cgRun ops A b x x_true max_iter tol).hist_relres_2
        = (List.range (m + 1)).map
            (fun j => spec_relres_2 ops b (spec_iterate ops A b x j)) ∧
      (cgRun ops A b x x_true max_iter tol).hist_relerr_2
        = (List.range (m + 1)).map
            (fun j => spec_relerr_2 ops x_true (spec_iterate ops A b x j)) ∧
      (cgRun ops A b x x_true max_iter tol).hist_relerr_A
        = (List.range (m + 1)).map
            (fun j => spec_relerr_A ops A x_true (spec_iterate ops A b x j)) ∧
      ((cgRun ops A b x x_true max_iter tol).is_converged = some true →
        (cgRun ops A b x x_true max_iter tol).p = (spec_iterate ops A b x (m - 1)).p ∧
        (cgRun ops A b x x_true max_iter tol).rs_old
          = (spec_iterate ops A b x (m - 1)).rs_old) ∧
      ((cgRun ops A b x x_true max_iter tol).is_converged ≠ some true →
        (cgRun ops A b x x_true max_iter tol).p = (spec_iterate ops A b x m).p ∧
        (cgRun ops A b x x_true max_iter tol).rs_old = (spec_iterate ops A b x m).rs_old) ∧
      (1 ≤ max_iter → (cgRun ops A b x x_true max_iter tol).iter_final = some (m : Int)) ∧
      (∀ n, (cgRun ops A b x x_true max_iter tol).iter_final = some n → n = (m : Int)) := by
  rcases le_or_lt max_iter 0 with h | h
  · rw [cgRun_nonpos ops A b x x_true max_iter tol h]
    refine ⟨0, by simp, rfl, rfl, rfl, rfl, rfl, ?_, fun _ => ⟨rfl, rfl⟩,
      fun h1 => absurd h1 (by omega), ?_⟩
    · intro hc; exact absurd hc (by simp [cgStart])
    · intro n hn; exact absurd hn (by simp [cgStart])
  · obtain ⟨hx, hr, l1, l2, l3, hT, hF⟩ := cgRun_pos ops A b x x_true max_iter tol (by omega)
    have hle := spec_run_le ops A b x tol max_iter.toNat 0
    have hfin : (cgRun ops A b x x_true max_iter tol).iter_final
        = some ((spec_run ops A b x tol max_iter.toNat 0 : Nat) : Int) := by
      cases hc : spec_converged ops tol
          (spec_iterate ops A b x (spec_run ops A b x tol max_iter.toNat 0))
      · have hm : spec_run ops A b x tol max_iter.toNat 0 = 0 + max_iter.toNat := by
          by_contra hne
          have := spec_run_stop ops A b x tol max_iter.toNat 0 (by omega)
          rw [hc] at this
          exact absurd this (by simp)
        rw [(hF hc).1, hm]
        congr 1
        omega
      · exact (hT hc).1
    refine ⟨spec_run ops A b x tol max_iter.toNat 0, ?_, hx, hr, l1, l2, l3, ?_, ?_,
      fun _ => hfin, ?_⟩
    · have : max max_iter 0 = max_iter := max_eq_left (by omega)
      rw [this]; omega
    · intro hconv
      cases hc : spec_converged ops tol
          (spec_iterate ops A b x (spec_run ops A b x tol max_iter.toNat 0))
      · rw [(hF hc).2.1] at hconv
        exact absurd hconv (by simp)
      · exact (hT hc).2.2
    · intro hconv
      cases hc : spec_converged ops tol
          (spec_iterate ops A b x (spec_run ops A b x tol max_iter.toNat 0))
      · exact (hF hc).2.2
      · exact absurd (hT hc).2.1 hconv
    · intro n hn
      rw [hfin] at hn
      exact (Option.some.inj hn).symm

/-- C6: the specified recurrence starts from `r₀ = b − A·x₀`, `p₀ = r₀`,
`rs_old = r₀·r₀` and steps by `α = rs_old/(p·Ap)`, `x ← x + α·p`, `r ← r − α·Ap`,
`rs_new = r·r`, `β = rs_new/rs_old`, `p ← r + β·p`, `rs_old ← rs_new`; a call that
executes `m` iterations leaves `x` and `r` equal to those of the state after `m` such
steps, leaves `p` and `rs_old` equal to those of state `m` when the last iteration did
not converge and of state `m - 1` when it did, returns that `x` to the caller, and
`iter_final`, whenever it is assigned (always when `max_iter ≥ 1`), is `m`. -/
theorem conjugateGradient_follows_recurrence (ops : Ops T V M D) (A : M) (b x x_true : V)
    (max_iter : Int) (tol : D) (h : -1 ≤ max_iter) :
    spec_iterate ops A b x 0
      = { x := x, r := ops.vsub b (ops.matvec A x), p := ops.vsub b (ops.matvec A x),
          rs_old := ops.dot (ops.vsub b (ops.matvec A x)) (ops.vsub b (ops.matvec A x)) } ∧
    (∀ i, spec_iterate ops A b x (i + 1)
      = (let s := spec_iterate ops A b x i
         let Ap := ops.matvec A s.p
         let alpha := ops.div s.rs_old (ops.dot s.p Ap)
         let r := ops.vsub s.r (ops.smul alpha Ap)
         let rs_new := ops.dot r r
         let beta := ops.div rs_new s.rs_old
         { x := ops.vadd s.x (ops.smul alpha s.p), r := r,
           p := ops.vadd r (ops.smul beta s.p), rs_old := rs_new })) ∧
    ∃ res xf, ∃ m : Nat,
      conjugateGradient ops A b x x_true max_iter tol = Except.ok (res, xf) ∧
      (m : Int) ≤ max max_iter 0 ∧
      xf = (spec_iterate ops A b x m).x ∧
      (cgRun ops A b x x_true max_iter tol).x = xf ∧
      (cgRun ops A b x x_true max_iter tol).r = (spec_iterate ops A b x m).r ∧
      (res.is_converged = some true →
        (cgRun ops A b x x_true max_iter tol).p = (spec_iterate ops A b x (m - 1)).p ∧
        (cgRun ops A b x x_true max_iter tol).rs_old
          = (spec_iterate ops A b x (m - 1)).rs_old) ∧
      (res.is_converged ≠ some true →
        (cgRun ops A b x x_true max_iter tol).p = (spec_iterate ops A b x m).p ∧
        (cgRun ops A b x x_true max_iter tol).rs_old = (spec_iterate ops A b x m).rs_old) ∧
      (1 ≤ max_iter → res.iter_final = some (m : Int)) ∧
      (∀ n, res.iter_final = some n → n = (m : Int)) := by
  obtain ⟨m, hm, hx, hr, -, -, -, hT, hF, h1, hn⟩ := cgRun_general ops A b x x_true max_iter tol
  exact ⟨rfl, fun _ => rfl, _, _, m, conjugateGradient_ok ops A b x x_true max_iter tol h,
    hm, hx, rfl, hr, hT, hF, h1, hn⟩

/-- C7: entry `i` of each history, for every `i` up to the number `m` of executed
iterations (which is `iter_final` whenever that field is assigned), is the narrowed
metric of the specified state after `i` iterations: `to_double(sqrt(r_i·r_i) / b_norm)`,
`to_double(‖x_i − x_true‖ / x_true_norm)` and `to_double(‖A(x_i − x_true)‖ / x_true_norm)`
with `b_norm = sqrt(b·b)` and `x_true_norm = sqrt(x_true·x_true)`. -/
theorem conjugateGradient_history (ops : Ops T V M D) (A : M) (b x x_true : V)
    (max_iter : Int) (tol : D) (h : -1 ≤ max_iter) :
    ∃ res xf, ∃ m : Nat,
      conjugateGradient ops A b x x_true max_iter tol = Except.ok (res, xf) ∧
      (1 ≤ max_iter → res.iter_final = some (m : Int)) ∧
      (∀ n, res.iter_final = some n → n = (m : Int)) ∧
      res.hist_relres_2.length = m + 1 ∧ res.hist_relerr_2.length = m + 1 ∧
      res.hist_relerr_A.length = m + 1 ∧
      ∀ i, i ≤ m →
        res.hist_relres_2[i]?
          = some (ops.to_double (ops.div
              (ops.sqrt (ops.dot (spec_iterate ops A b x i).r (spec_iterate ops A b x i).r))
              (ops.sqrt (ops.dot b b)))) ∧
        res.hist_relerr_2[i]?
          = some (ops.to_double (ops.div
              (ops.sqrt (ops.dot (ops.vsub (spec_iterate ops A b x i).x x_true)
                (ops.vsub (spec_iterate ops A b x i).x x_true)))
              (ops.sqrt (ops.dot x_true x_true)))) ∧
        res.hist_relerr_A[i]?
          = some (ops.to_double (ops.div
              (ops.sqrt (ops.dot (ops.matvec A (ops.vsub (spec_iterate ops A b x i).x x_true))
                (ops.matvec A (ops.vsub (spec_iterate ops A b x i).x x_true))))
              (ops.sqrt (ops.dot x_true x_true)))) := by
  obtain ⟨m, -, -, -, l1, l2, l3, -, -, h1, hn⟩ := cgRun_general ops A b x x_true max_iter tol
  refine ⟨_, _, m, conjugateGradient_ok ops A b x x_true max_iter tol h, h1, hn, ?_, ?_, ?_, ?_⟩
  · show (cgRun ops A b x x_true max_iter tol).hist_relres_2.length = _
    rw [l1]; simp
  · show (cgRun ops A b x x_true max_iter tol).hist_relerr_2.length = _
    rw [l2]; simp
  · show (cgRun ops A b x x_true max_iter tol).hist_relerr_A.length = _
    rw [l3]; simp
  · intro i hi
    have hlt : i < m + 1 := by omega
    refine ⟨?_, ?_, ?_⟩
    · show (cgRun ops A b x x_true max_iter tol).hist_relres_2[i]? = _
      rw [l1, List.getElem?_map, List.getElem?_range hlt]
      rfl
    · show (cgRun ops A b x x_true max_iter tol).hist_relerr_2[i]? = _
      rw [l2, List.getElem?_map, List.getElem?_range hlt]
      rfl
    · show (cgRun ops A b x x_true max_iter tol).hist_relerr_A[i]? = _
      rw [l3, List.getElem?_map, List.getElem?_range hlt]
      rfl

/-- C8: a call that returns reports `true_relres_2 =
to_double(sqrt((A·x − b)·(A·x − b)) / sqrt(b·b))` for the final `x` it hands back; the
value is a function of `A`, `b` and that `x` only. -/
theorem conjugateGradient_true_relres (ops : Ops T V M D) (A : M) (b x x_true : V)
    (max_iter : Int) (tol : D) (h : -1 ≤ max_iter) :
    ∃ res xf, conjugateGradient ops A b x x_true max_iter tol = Except.ok (res, xf) ∧
      res.true_relres_2
        = ops.to_double (ops.div
            (ops.sqrt (ops.dot (ops.vsub (ops.matvec A xf) b) (ops.vsub (ops.matvec A xf) b)))
            (ops.sqrt (ops.dot b b))) :=
  ⟨_, _, conjugateGradient_ok ops A b x x_true max_iter tol h, rfl⟩

/-! ### Exact arithmetic: defined runs -/

theorem xdot_foldl (n : Nat) (u v : Fin n → ℝ) (l : List (Fin n)) (acc : ℝ) :
    l.foldl (fun a i => xadd a (xmul (liftV u i) (liftV v i))) (some acc)
      = some (acc + (l.map (fun i => u i * v i)).sum) := by
  induction l generalizing acc with
  | nil => simp
  | cons i l ih =>
    rw [List.foldl_cons]
    have : xadd (some acc) (xmul (liftV u i) (liftV v i)) = some (acc + u i * v i) := rfl
    rw [this, ih, List.map_cons, List.sum_cons, add_assoc]

theorem xdot_liftV {n : Nat} (u v : Fin n → ℝ) :
    xdot (liftV u) (liftV v) = some (Matrix.dotProduct u v) := by
  unfold xdot
  rw [xdot_foldl, zero_add, Matrix.dotProduct, Fin.sum_univ_def]

theorem xmatvec_lift {n : Nat} (A : Matrix (Fin n) (Fin n) ℝ) (v : Fin n → ℝ) :
    xmatvec (liftM A) (liftV v) = liftV (A.mulVec v) := by
  funext i
  show xdot (liftV (A i)) (liftV v) = _
  rw [xdot_liftV]
  rfl

theorem exact_init_lift {n : Nat} (A : Matrix (Fin n) (Fin n) ℝ) (b x : Fin n → ℝ) :
    spec_init (exactOps n) (liftM A) (liftV b) (liftV x)
      = liftState (spec_init (realOps n) A b x) := by
  have hr : (exactOps n).vsub (liftV b) ((exactOps n).matvec (liftM A) (liftV x))
      = liftV (b - A.mulVec x) := by
    show (fun i => xsub (liftV b i) (xmatvec (liftM A) (liftV x) i)) = _
    rw [xmatvec_lift]
    rfl
  unfold spec_init
  simp only [hr]
  show _ = liftState _
  unfold liftState
  congr 1
  exact xdot_liftV _ _

theorem exact_step_lift {n : Nat} (A : Matrix (Fin n) (Fin n) ℝ)
    (s : SpecState ℝ (Fin n → ℝ)) (h1 : s.rs_old ≠ 0)
    (h2 : Matrix.dotProduct s.p (A.mulVec s.p) ≠ 0) :
    spec_step (exactOps n) (liftM A) (liftState s)
      = liftState (spec_step (realOps n) A s) := by
  have hAp : (exactOps n).matvec (liftM A) (liftV s.p) = liftV (A.mulVec s.p) :=
    xmatvec_lift A s.p
  have hpAp : (exactOps n).dot (liftV s.p) (liftV (A.mulVec s.p))
      = some (Matrix.dotProduct s.p (A.mulVec s.p)) := xdot_liftV _ _
  have halpha : (exactOps n).div (some s.rs_old) (some (Matrix.dotProduct s.p (A.mulVec s.p)))
      = some (s.rs_old / Matrix.dotProduct s.p (A.mulVec s.p)) := by
    simp [exactOps, xdiv, h2]
  have hx : ∀ (a : ℝ) (u w : Fin n → ℝ),
      (exactOps n).vadd (liftV u) ((exactOps n).smul (some a) (liftV w))
        = liftV (u + a • w) := fun _ _ _ => rfl
  have hr : ∀ (a : ℝ) (u w : Fin n → ℝ),
      (exactOps n).vsub (liftV u) ((exactOps n).smul (some a) (liftV w))
        = liftV (u - a • w) := fun _ _ _ => rfl
  have hdot : ∀ u w : Fin n → ℝ, (exactOps n).dot (liftV u) (liftV w)
      = some (Matrix.dotProduct u w) := fun u w => xdot_liftV u w
  have hbeta : ∀ a : ℝ, (exactOps n).div (some a) (some s.rs_old) = some (a / s.rs_old) := by
    intro a
    simp [exactOps, xdiv, h1]
  unfold spec_step liftState
  simp only [hAp, hpAp, halpha, hx, hr, hdot, hbeta]
  rfl

theorem exact_converged_lift {n : Nat} (tol : ℝ) (s : SpecState ℝ (Fin n → ℝ))
    (h : 0 ≤ s.rs_old) :
    spec_converged (exactOps n) (some tol) (liftState s) = decide (Real.sqrt s.rs_old < tol) := by
  show xlt (xsqrt (some s.rs_old)) (some tol) = _
  simp [xsqrt, xlt, not_lt.mpr h]

/-! ### The real recurrence: orthogonality and finite termination -/

open Matrix in
theorem rs_old_eq {n : Nat} (A : Matrix (Fin n) (Fin n) ℝ) (b x : Fin n → ℝ) (k : Nat) :
    (spec_iterate (realOps n) A b x k).rs_old = resid A b x k ⬝ᵥ resid A b x k := by
  cases k <;> rfl

open Matrix in
theorem resid_zero {n : Nat} (A : Matrix (Fin n) (Fin n) ℝ) (b x : Fin n → ℝ) :
    resid A b x 0 = b - A *ᵥ x := rfl

theorem dir_zero {n : Nat} (A : Matrix (Fin n) (Fin n) ℝ) (b x : Fin n → ℝ) :
    dir A b x 0 = resid A b x 0 := rfl

open Matrix in
theorem resid_succ {n : Nat} (A : Matrix (Fin n) (Fin n) ℝ) (b x : Fin n → ℝ) (k : Nat) :
    resid A b x (k + 1)
      = resid A b x k
        - ((resid A b x k ⬝ᵥ resid A b x k) / (dir A b x k ⬝ᵥ A *ᵥ dir A b x k))
          • (A *ᵥ dir A b x k) := by
  rw [← rs_old_eq]
  rfl

open Matrix in
theorem dir_succ {n : Nat} (A : Matrix (Fin n) (Fin n) ℝ) (b x : Fin n → ℝ) (k : Nat) :
    dir A b x (k + 1)
      = resid A b x (k + 1)
        + ((resid A b x (k + 1) ⬝ᵥ resid A b x (k + 1)) / (resid A b x k ⬝ᵥ resid A b x k))
          • dir A b x k := by
  rw [← rs_old_eq, ← rs_old_eq]
  rfl

open Matrix in
theorem spd_symm {n : Nat} {A : Matrix (Fin n) (Fin n) ℝ} (hA : IsSPD A)
    (u v : Fin n → ℝ) : u ⬝ᵥ A *ᵥ v = v ⬝ᵥ A *ᵥ u := by
  have hT : Aᵀ = A := by
    ext i j
    exact (hA.1 i j).symm
  rw [dotProduct_mulVec, ← mulVec_transpose, hT, dotProduct_comm]

open Matrix in
theorem dot_self_pos {n : Nat} {v : Fin n → ℝ} (hv : v ≠ 0) : 0 < v ⬝ᵥ v := by
  have h0 : 0 ≤ v ⬝ᵥ v := Finset.sum_nonneg (fun i _ => mul_self_nonneg (v i))
  have hne : v ⬝ᵥ v ≠ 0 := fun h => hv (dotProduct_self_eq_zero.mp h)
  exact lt_of_le_of_ne h0 (Ne.symm hne)

open Matrix in
/-- While the residuals `r_0 .. r_{k-1}` are non-zero the orthogonality relations hold up
to index `k`. -/
theorem cg_orth {n : Nat} {A : Matrix (Fin n) (Fin n) ℝ} (hA : IsSPD A) (b x : Fin n → ℝ)
    (k : Nat) (hnz : ∀ j, j < k → resid A b x j ≠ 0) : CGOrth A b x k := by
  induction k with
  | zero =>
    refine ⟨fun i j hij hj => absurd hij (by omega), fun i j hij hj => absurd hij (by omega),
      fun i j hij hj => absurd hij (by omega), fun j hj => ?_⟩
    obtain rfl : j = 0 := by omega
    rw [dir_zero]
  | succ k ih =>
    obtain ⟨ha, hb, hc, hd⟩ := ih (fun j hj => hnz j (by omega))
    have hρ : ∀ i, i ≤ k → 0 < resid A b x i ⬝ᵥ resid A b x i :=
      fun i hi => dot_self_pos (hnz i (by omega))
    have hδ : ∀ i, i ≤ k → 0 < dir A b x i ⬝ᵥ A *ᵥ dir A b x i := by
      intro i hi
      apply hA.2
      intro h0
      have h1 := hd i hi
      rw [h0, dotProduct_zero] at h1
      exact absurd h1.symm (hρ i hi).ne'
    have hc' : ∀ i, i ≤ k → resid A b x (k + 1) ⬝ᵥ dir A b x i = 0 := by
      intro i hi
      rw [resid_succ, sub_dotProduct, smul_dotProduct, smul_eq_mul,
        dotProduct_comm (A *ᵥ dir A b x k) (dir A b x i),
        spd_symm hA (dir A b x i) (dir A b x k)]
      rcases Nat.lt_or_eq_of_le hi with hlt | rfl
      · rw [hc i k hlt le_rfl, spd_symm hA (dir A b x k) (dir A b x i),
          spd_symm hA (dir A b x i) (dir A b x k), hb i k hlt le_rfl]
        simp
      · rw [hd i le_rfl]
        have := (hδ i le_rfl).ne'
        field_simp
    have ha' : ∀ i, i ≤ k → resid A b x (k + 1) ⬝ᵥ resid A b x i = 0 := by
      intro i hi
      cases i with
      | zero => rw [← dir_zero]; exact hc' 0 hi
      | succ i =>
        have hR : resid A b x (i + 1)
            = dir A b x (i + 1)
              - ((resid A b x (i + 1) ⬝ᵥ resid A b x (i + 1))
                  / (resid A b x i ⬝ᵥ resid A b x i)) • dir A b x i := by
          rw [dir_succ A b x i, add_sub_cancel_right]
        rw [hR, dotProduct_sub, dotProduct_smul, hc' (i + 1) hi, hc' i (by omega)]
        simp
    have hd' : resid A b x (k + 1) ⬝ᵥ dir A b x (k + 1)
        = resid A b x (k + 1) ⬝ᵥ resid A b x (k + 1) := by
      rw [dir_succ A b x k, dotProduct_add, dotProduct_smul, hc' k le_rfl]
      simp
    have hkey : ∀ i, i ≤ k →
        ((resid A b x i ⬝ᵥ resid A b x i) / (dir A b x i ⬝ᵥ A *ᵥ dir A b x i))
            * (resid A b x (k + 1) ⬝ᵥ A *ᵥ dir A b x i)
          = resid A b x (k + 1) ⬝ᵥ resid A b x i
            - resid A b x (k + 1) ⬝ᵥ resid A b x (i + 1) := by
      intro i _
      have h := congrArg (fun v => resid A b x (k + 1) ⬝ᵥ v) (resid_succ A b x i)
      simp only [dotProduct_sub, dotProduct_smul, smul_eq_mul] at h
      rw [h]
      ring
    have hb' : ∀ i, i ≤ k → dir A b x (k + 1) ⬝ᵥ A *ᵥ dir A b x i = 0 := by
      intro i hi
      have hk := hkey i hi
      have hρi := hρ i hi
      have hδi := hδ i hi
      rw [dir_succ A b x k, add_dotProduct, smul_dotProduct, smul_eq_mul]
      rcases Nat.lt_or_eq_of_le hi with hlt | rfl
      · rw [ha' i hi, ha' (i + 1) (by omega), sub_zero] at hk
        have hα : (resid A b x i ⬝ᵥ resid A b x i) / (dir A b x i ⬝ᵥ A *ᵥ dir A b x i) ≠ 0 :=
          (div_pos hρi hδi).ne'
        rcases mul_eq_zero.mp hk with h | h
        · exact absurd h hα
        · rw [h, hb i k hlt le_rfl]
          simp
      · rw [ha' i le_rfl, zero_sub] at hk
        have h1 := hρi.ne'
        have h2 := hδi.ne'
        field_simp at hk ⊢
        linarith
    refine ⟨?_, ?_, ?_, ?_⟩
    · intro i j hij hj
      rcases Nat.lt_or_eq_of_le hj with h | rfl
      · exact ha i j hij (by omega)
      · exact ha' i (by omega)
    · intro i j hij hj
      rcases Nat.lt_or_eq_of_le hj with h | rfl
      · exact hb i j hij (by omega)
      · exact hb' i (by omega)
    · intro i j hij hj
      rcases Nat.lt_or_eq_of_le hj with h | rfl
      · exact hc i j hij (by omega)
      · exact hc' i (by omega)
    · intro j hj
      rcases Nat.lt_or_eq_of_le hj with h | rfl
      · exact hd j (by omega)
      · exact hd'

/-- The predicate `IsSPD` is positive definiteness in the sense of Mathlib. -/
theorem isSPD_iff_posDef {n : Nat} (A : Matrix (Fin n) (Fin n) ℝ) : IsSPD A ↔ A.PosDef := by
  constructor
  · rintro ⟨h1, h2⟩
    refine ⟨?_, fun v hv => ?_⟩
    · ext i j
      simpa using h1 j i
    · simpa using h2 v hv
  · rintro ⟨h1, h2⟩
    refine ⟨fun i j => ?_, fun v hv => ?_⟩
    · have := h1.apply j i
      simpa using this
    · simpa using h2 v hv

open Matrix in
theorem sum_dotProduct_left {n : Nat} {ι : Type} (s : Finset ι) (f : ι → Fin n → ℝ)
    (w : Fin n → ℝ) : (∑ j ∈ s, f j) ⬝ᵥ w = ∑ j ∈ s, f j ⬝ᵥ w := by
  classical
  induction s using Finset.induction_on with
  | empty => simp
  | insert hj ih => rw [Finset.sum_insert hj, Finset.sum_insert hj, add_dotProduct, ih]

open Matrix in
/-- In dimension `n` one of the residuals `r_0 .. r_n` of the real recurrence is zero:
non-zero mutually orthogonal vectors are linearly independent. -/
theorem exists_resid_zero {n : Nat} {A : Matrix (Fin n) (Fin n) ℝ} (hA : IsSPD A)
    (b x : Fin n → ℝ) : ∃ j, j ≤ n ∧ resid A b x j = 0 := by
  by_contra hcon
  push_neg at hcon
  obtain ⟨ha, -, -, -⟩ := cg_orth hA b x n (fun j hj => hcon j (by omega))
  have hli : LinearIndependent ℝ (fun i : Fin (n + 1) => resid A b x i) := by
    rw [linearIndependent_iff']
    intro s g hsum i hi
    have h1 : (∑ j ∈ s, g j • resid A b x j) ⬝ᵥ resid A b x i = 0 := by
      rw [hsum, zero_dotProduct]
    rw [sum_dotProduct_left, Finset.sum_eq_single i] at h1
    · rw [smul_dotProduct, smul_eq_mul] at h1
      rcases mul_eq_zero.mp h1 with h | h
      · exact h
      · exact absurd (dotProduct_self_eq_zero.mp h) (hcon i (by omega))
    · intro j _ hji
      rw [smul_dotProduct, smul_eq_mul]
      have hne : (j : Nat) ≠ (i : Nat) := fun h => hji (Fin.ext h)
      rcases Nat.lt_or_gt_of_ne hne with h | h
      · rw [dotProduct_comm, ha j i h (by omega), mul_zero]
      · rw [ha i j h (by omega), mul_zero]
    · intro hni
      exact absurd hi hni
  have hcard := hli.fintype_card_le_finrank
  rw [Module.finrank_fintype_fun_eq_card, Fintype.card_fin, Fintype.card_fin] at hcard
  omega

open Matrix in
/-- While the residuals up to `r_k` are non-zero, the denominator `p_k·(A p_k)` of the
step length is positive. -/
theorem dir_energy_pos {n : Nat} {A : Matrix (Fin n) (Fin n) ℝ} (hA : IsSPD A)
    (b x : Fin n → ℝ) (k : Nat) (hnz : ∀ j, j ≤ k → resid A b x j ≠ 0) :
    0 < dir A b x k ⬝ᵥ A *ᵥ dir A b x k := by
  obtain ⟨-, -, -, hd⟩ := cg_orth hA b x k (fun j hj => hnz j (by omega))
  apply hA.2
  intro h0
  have h1 := hd k le_rfl
  rw [h0, dotProduct_zero] at h1
  exact absurd h1.symm (dot_self_pos (hnz k le_rfl)).ne'

/-- While the residuals before `r_k` are non-zero no operation of the first `k`
iterations is undefined: the exact run is the real recurrence. -/
theorem exact_iterate_lift {n : Nat} {A : Matrix (Fin n) (Fin n) ℝ} (hA : IsSPD A)
    (b x : Fin n → ℝ) (k : Nat) (hnz : ∀ j, j < k → resid A b x j ≠ 0) :
    spec_iterate (exactOps n) (liftM A) (liftV b) (liftV x) k
      = liftState (spec_iterate (realOps n) A b x k) := by
  induction k with
  | zero => exact exact_init_lift A b x
  | succ k ih =>
    show spec_step (exactOps n) (liftM A)
        (spec_iterate (exactOps n) (liftM A) (liftV b) (liftV x) k) = _
    rw [ih (fun j hj => hnz j (by omega))]
    apply exact_step_lift
    · rw [rs_old_eq]
      exact (dot_self_pos (hnz k (by omega))).ne'
    · exact (dir_energy_pos hA b x k (fun j hj => hnz j (by omega))).ne'

open Matrix in
/-- C5, as amended: in exact arithmetic, for a symmetric positive definite `n × n`
matrix `A`, a tolerance `> 0`, `max_iter ≥ n` and an initial guess that is not already
a solution (`A·x ≠ b`, which makes every division of the run defined), the call returns
`is_converged = true` with `1 ≤ iter_final ≤ n`. -/
theorem conjugateGradient_exact_converges (n : Nat) (A : Matrix (Fin n) (Fin n) ℝ)
    (b x x_true : Fin n → ℝ) (tol : ℝ) (max_iter : Int) (hA : IsSPD A) (htol : 0 < tol)
    (hmax : (n : Int) ≤ max_iter) (hr0 : A *ᵥ x ≠ b) :
    ∃ res xf, ∃ m : Nat,
      conjugateGradient (exactOps n) (liftM A) (liftV b) (liftV x) (liftV x_true)
          max_iter (some tol) = Except.ok (res, xf) ∧
      res.is_converged = some true ∧ res.iter_final = some (m : Int) ∧ 1 ≤ m ∧ m ≤ n := by
  classical
  have hex : ∃ j, resid A b x j = 0 := by
    obtain ⟨j, -, hj⟩ := exists_resid_zero hA b x
    exact ⟨j, hj⟩
  have hj0n : Nat.find hex ≤ n := by
    obtain ⟨j, hjn, hj⟩ := exists_resid_zero hA b x
    exact (Nat.find_min' hex hj).trans hjn
  have hj0 : resid A b x (Nat.find hex) = 0 := Nat.find_spec hex
  have hbelow : ∀ i, i < Nat.find hex → resid A b x i ≠ 0 := fun i hi => Nat.find_min hex hi
  have hpos : 1 ≤ Nat.find hex := by
    rcases Nat.eq_zero_or_pos (Nat.find hex) with h | h
    · rw [h, resid_zero] at hj0
      exact absurd (sub_eq_zero.mp hj0).symm hr0
    · exact h
  have hpass : ∃ m, 1 ≤ m ∧ spec_converged (exactOps n) (some tol)
      (spec_iterate (exactOps n) (liftM A) (liftV b) (liftV x) m) = true := by
    refine ⟨Nat.find hex, hpos, ?_⟩
    rw [exact_iterate_lift hA b x _ hbelow, exact_converged_lift, rs_old_eq, hj0]
    · simp [htol]
    · rw [rs_old_eq, hj0]; simp
  have hm := Nat.find_spec hpass
  have hmle : Nat.find hpass ≤ Nat.find hex :=
    Nat.find_min' hpass ⟨hpos, by
      rw [exact_iterate_lift hA b x _ hbelow, exact_converged_lift, rs_old_eq, hj0]
      · simp [htol]
      · rw [rs_old_eq, hj0]; simp⟩
  obtain ⟨k, hk⟩ : ∃ k, Nat.find hpass = k + 1 := ⟨Nat.find hpass - 1, by omega⟩
  have hbefore : ∀ j, j < k → spec_converged (exactOps n) (some tol)
      (spec_iterate (exactOps n) (liftM A) (liftV b) (liftV x) (j + 1)) = false := by
    intro j hj
    have := Nat.find_min hpass (m := j + 1) (by omega)
    simpa using this
  rw [hk] at hm
  obtain ⟨res, hres, hc, hf, -⟩ :=
    conjugateGradient_stops_at (exactOps n) (liftM A) (liftV b) (liftV x) (liftV x_true)
      max_iter (some tol) k (by omega) hbefore hm.2
  refine ⟨res, _, k + 1, hres, hc, ?_, by omega, by omega⟩
  rw [hf]
  push_cast
  rfl

/-! ### The system of `main.cpp` in exact arithmetic -/

open Matrix in
theorem main_b_eq : main_b = ![3, 2, 3] := by
  ext i
  fin_cases i <;> simp [main_b, main_A, main_x_true, Matrix.mulVec, Matrix.dotProduct,
    Fin.sum_univ_three] <;> norm_num

open Matrix in
theorem main_A_spd : IsSPD main_A := by
  constructor
  · intro i j
    fin_cases i <;> fin_cases j <;> rfl
  · intro v hv
    have hexp : v ⬝ᵥ main_A *ᵥ v
        = (v 0 - v 1) ^ 2 + (v 1 - v 2) ^ 2 + 3 * v 0 ^ 2 + 2 * v 1 ^ 2 + 3 * v 2 ^ 2 := by
      simp [main_A, Matrix.mulVec, Matrix.dotProduct, Fin.sum_univ_three]
      ring
    rw [hexp]
    have hne : v 0 ≠ 0 ∨ v 1 ≠ 0 ∨ v 2 ≠ 0 := by
      by_contra hcon
      push_neg at hcon
      apply hv
      ext i
      fin_cases i
      · exact hcon.1
      · exact hcon.2.1
      · exact hcon.2.2
    rcases hne with h | h | h
    · have := sq_pos_of_ne_zero h; positivity
    · have := sq_pos_of_ne_zero h; positivity
    · have := sq_pos_of_ne_zero h; positivity

open Matrix in
theorem main_A_mulVec (a b c : ℝ) :
    main_A *ᵥ ![a, b, c] = ![4 * a - b, -a + 4 * b - c, -b + 4 * c] := by
  ext i
  fin_cases i <;> simp [main_A, Matrix.mulVec, Matrix.dotProduct, Fin.sum_univ_three] <;> ring

open Matrix in
theorem vec3_dot (a b c d e f : ℝ) : ![a, b, c] ⬝ᵥ ![d, e, f] = a * d + b * e + c * f := by
  simp [Matrix.dotProduct, Fin.sum_univ_three, add_assoc]

theorem vec3_add (a b c d e f : ℝ) : ![a, b, c] + ![d, e, f] = ![a + d, b + e, c + f] := by
  ext i
  fin_cases i <;> simp

theorem vec3_sub (a b c d e f : ℝ) : ![a, b, c] - ![d, e, f] = ![a - d, b - e, c - f] := by
  ext i
  fin_cases i <;> simp

theorem vec3_smul (t a b c : ℝ) : t • ![a, b, c] = ![t * a, t * b, t * c] := by
  ext i
  fin_cases i <;> simp

/-- One step of the real recurrence for the matrix of `main`, in coordinates. -/
theorem main_step (x0 x1 x2 r0 r1 r2 p0 p1 p2 ρ : ℝ) :
    spec_step (realOps 3) main_A
        { x := ![x0, x1, x2], r := ![r0, r1, r2], p := ![p0, p1, p2], rs_old := ρ }
      = (let α := ρ / (p0 * (4 * p0 - p1) + p1 * (-p0 + 4 * p1 - p2) + p2 * (-p1 + 4 * p2))
         let s0 := r0 - α * (4 * p0 - p1)
         let s1 := r1 - α * (-p0 + 4 * p1 - p2)
         let s2 := r2 - α * (-p1 + 4 * p2)
         let σ := s0 * s0 + s1 * s1 + s2 * s2
         { x := ![x0 + α * p0, x1 + α * p1, x2 + α * p2], r := ![s0, s1, s2],
           p := ![s0 + σ / ρ * p0, s1 + σ / ρ * p1, s2 + σ / ρ * p2], rs_old := σ }) := by
  simp only [spec_step, realOps, main_A_mulVec, vec3_dot, vec3_add, vec3_sub, vec3_smul]

theorem main_state_zero :
    spec_iterate (realOps 3) main_A main_b main_x 0
      = { x := ![0, 0, 0], r := ![3, 2, 3], p := ![3, 2, 3], rs_old := 22 } := by
  show spec_init (realOps 3) main_A main_b main_x = _
  rw [main_b_eq]
  simp only [spec_init, realOps, main_x, main_A_mulVec, vec3_dot, vec3_sub]
  norm_num

theorem main_state_one :
    spec_iterate (realOps 3) main_A main_b main_x 1
      = { x := ![33 / 32, 11 / 16, 33 / 32], r := ![-7 / 16, 21 / 16, -7 / 16],
          p := ![-77 / 512, 385 / 256, -77 / 512], rs_old := 539 / 256 } := by
  show spec_step (realOps 3) main_A (spec_iterate (realOps 3) main_A main_b main_x 0) = _
  rw [main_state_zero, main_step]
  norm_num

theorem main_state_two :
    (spec_iterate (realOps 3) main_A main_b main_x 2).x = ![1, 1, 1] ∧
    (spec_iterate (realOps 3) main_A main_b main_x 2).r = ![0, 0, 0] ∧
    (spec_iterate (realOps 3) main_A main_b main_x 2).rs_old = 0 := by
  have h : spec_iterate (realOps 3) main_A main_b main_x 2
      = spec_step (realOps 3) main_A (spec_iterate (realOps 3) main_A main_b main_x 1) := rfl
  rw [h, main_state_one, main_step]
  norm_num

/-! ### Exact arithmetic: a run that starts at the solution -/

theorem xsub_none_right (a : Option ℝ) : xsub a none = none := by
  cases a <;> rfl

theorem xadd_none_right (a : Option ℝ) : xadd a none = none := by
  cases a <;> rfl

theorem xdot_foldl_none {n : Nat} (u v : Fin n → Option ℝ) (l : List (Fin n)) :
    l.foldl (fun acc i => xadd acc (xmul (u i) (v i))) none = none := by
  induction l with
  | nil => rfl
  | cons i l ih => exact ih

/-- The dot product of an undefined vector of positive size is undefined. -/
theorem xdot_none {n : Nat} (hn : 0 < n) (u v : Fin n → Option ℝ) (h : ∀ i, u i = none) :
    xdot u v = none := by
  unfold xdot
  cases hl : List.finRange n with
  | nil =>
    have := List.length_finRange n
    rw [hl] at this
    simp at this
    omega
  | cons i l =>
    rw [List.foldl_cons, h i]
    exact xdot_foldl_none u v l

/-- An iteration whose step length is undefined produces an undefined residual norm. -/
theorem exact_step_undef {n : Nat} (hn : 0 < n) (A : Fin n → Fin n → Option ℝ)
    (s : SpecState (Option ℝ) (Fin n → Option ℝ))
    (h : xdiv s.rs_old (xdot s.p (xmatvec A s.p)) = none) :
    (spec_step (exactOps n) A s).rs_old = none := by
  show xdot (fun i => xsub (s.r i) (xmul (xdiv s.rs_old (xdot s.p (xmatvec A s.p)))
      (xmatvec A s.p i))) _ = none
  apply xdot_none hn
  intro i
  rw [h]
  exact xsub_none_right _

/-- Once the step length of the first iteration is undefined, the residual norm of every
later state is undefined. -/
theorem exact_undef_forever {n : Nat} (hn : 0 < n) (A : Fin n → Fin n → Option ℝ)
    (b x : Fin n → Option ℝ)
    (h : xdiv (spec_init (exactOps n) A b x).rs_old
        (xdot (spec_init (exactOps n) A b x).p (xmatvec A (spec_init (exactOps n) A b x).p))
      = none) (k : Nat) :
    (spec_iterate (exactOps n) A b x (k + 1)).rs_old = none := by
  induction k with
  | zero => exact exact_step_undef hn A _ h
  | succ k ih =>
    apply exact_step_undef hn A (spec_iterate (exactOps n) A b x (k + 1))
    rw [ih]
    rfl

theorem exact_converged_undef {n : Nat} (tol : Option ℝ)
    (s : SpecState (Option ℝ) (Fin n → Option ℝ)) (h : s.rs_old = none) :
    spec_converged (exactOps n) tol s = false := by
  show xlt (xsqrt s.rs_old) tol = false
  rw [h]
  rfl

open Matrix in
/-- In exact arithmetic a call whose initial guess already solves the system
(`A·x = b`, so `r₀ = 0` and the first step length is `0/0`) never passes the
convergence test: it runs `max_iter` iterations and reports no convergence. -/
theorem conjugateGradient_exact_at_solution (n : Nat) (hn : 0 < n)
    (A : Matrix (Fin n) (Fin n) ℝ) (b x x_true : Fin n → ℝ) (tol : Option ℝ)
    (max_iter : Nat) (h1 : 1 ≤ max_iter) (hsol : A *ᵥ x = b) :
    ∃ res xf, conjugateGradient (exactOps n) (liftM A) (liftV b) (liftV x) (liftV x_true)
        (max_iter : Int) tol = Except.ok (res, xf) ∧
      res.is_converged = some false ∧ res.iter_final = some (max_iter : Int) := by
  have hinit : spec_init (realOps n) A b x
      = { x := x, r := 0, p := 0, rs_old := 0 } := by
    have hr : b - A *ᵥ x = 0 := by rw [hsol, sub_self]
    show ({ x := x, r := b - A *ᵥ x, p := b - A *ᵥ x,
            rs_old := (b - A *ᵥ x) ⬝ᵥ (b - A *ᵥ x) } : SpecState ℝ (Fin n → ℝ)) = _
    rw [hr, dotProduct_zero]
  have hundef : xdiv (spec_init (exactOps n) (liftM A) (liftV b) (liftV x)).rs_old
      (xdot (spec_init (exactOps n) (liftM A) (liftV b) (liftV x)).p
        (xmatvec (liftM A) (spec_init (exactOps n) (liftM A) (liftV b) (liftV x)).p))
      = none := by
    rw [exact_init_lift, hinit]
    show xdiv (some 0) (xdot (liftV 0) (xmatvec (liftM A) (liftV 0))) = none
    rw [xmatvec_lift, xdot_liftV, zero_dotProduct]
    simp [xdiv]
  obtain ⟨res, hres, hc, hf, -⟩ :=
    conjugateGradient_exhausts (exactOps n) (liftM A) (liftV b) (liftV x) (liftV x_true)
      max_iter tol h1
      (fun k _ => exact_converged_undef tol _
        (exact_undef_forever hn (liftM A) (liftV b) (liftV x) hundef k))
  exact ⟨res, _, hres, hc, hf⟩

/-- C5 (counterexample): the system of `main.cpp` (`n = 3`, `A` symmetric positive
definite, `b = A·[1,1,1]`) with tolerance `1e-15 > 0`, `max_iter = 100 ≥ 3` and
the initial guess `[1,1,1]`: the call returns `is_converged = false`. -/
theorem conjugateGradient_exact_counterexample :
    IsSPD main_A ∧ (0 : ℝ) < 1 / 10 ^ 15 ∧ ((3 : Nat) : Int) ≤ 100 ∧
    ∃ res xf, conjugateGradient (exactOps 3) (liftM main_A) (liftV main_b) (liftV main_x_true)
        (liftV main_x_true) 100 (some (1 / 10 ^ 15)) = Except.ok (res, xf) ∧
      res.is_converged = some false ∧ res.iter_final = some 100 := by
  refine ⟨main_A_spd, by norm_num, by norm_num, ?_⟩
  exact conjugateGradient_exact_at_solution 3 (by norm_num) main_A main_b main_x_true
    main_x_true (some (1 / 10 ^ 15)) 100 (by norm_num) rfl

/-! ### The run of `main.cpp` in exact arithmetic -/

theorem main_resid_ne_zero (j : Nat) (hj : j < 2) : resid main_A main_b main_x j ≠ 0 := by
  have h01 : j = 0 ∨ j = 1 := by omega
  rcases h01 with rfl | rfl
  · intro h
    have h0 := congrFun h 0
    rw [resid, main_state_zero] at h0
    norm_num at h0
  · intro h
    have h0 := congrFun h 0
    rw [resid, main_state_one] at h0
    norm_num at h0

theorem main_exact_one_fails (tol : ℝ) (htol : tol ^ 2 ≤ 539 / 256) :
    spec_converged (exactOps 3) (some tol)
      (spec_iterate (exactOps 3) (liftM main_A) (liftV main_b) (liftV main_x) 1) = false := by
  rw [exact_iterate_lift main_A_spd main_b main_x 1
    (fun j hj => main_resid_ne_zero j (by omega)), main_state_one,
    exact_converged_lift _ _ (by norm_num)]
  simp only [decide_eq_false_iff_not, not_lt]
  exact Real.le_sqrt_of_sq_le htol

theorem main_exact_two_passes (tol : ℝ) (htol : 0 < tol) :
    spec_converged (exactOps 3) (some tol)
      (spec_iterate (exactOps 3) (liftM main_A) (liftV main_b) (liftV main_x) 2) = true := by
  rw [exact_iterate_lift main_A_spd main_b main_x 2 main_resid_ne_zero,
    exact_converged_lift _ _ (by rw [main_state_two.2.2]), main_state_two.2.2]
  simp [htol]

theorem xlt_irrefl (d : Option ℝ) : xlt d d = false := by
  cases d <;> simp [xlt]

/-- C2 on the system of `main.cpp` in exact arithmetic: iteration `k = 1` is the first
whose residual norm is below `1e-15`, so the call returns `is_converged = true`,
`iter_final = 2`, histories of 3 entries and `x = [1,1,1]`; and with the tolerance equal
to the residual norm `sqrt(539/256)` of iteration `0`, that iteration does not mark
convergence. -/
theorem conjugateGradient_first_convergence_witness :
    ((1 : Nat) : Int) < 100 ∧
    (∃ res, conjugateGradient (exactOps 3) (liftM main_A) (liftV main_b) (liftV main_x)
        (liftV main_x_true) 100 (some (1 / 10 ^ 15)) = Except.ok (res, liftV ![1, 1, 1]) ∧
      res.is_converged = some true ∧ res.iter_final = some 2 ∧
      res.hist_relres_2.length = 3 ∧ res.hist_relerr_2.length = 3 ∧
      res.hist_relerr_A.length = 3) ∧
    (∃ res xf, conjugateGradient (exactOps 3) (liftM main_A) (liftV main_b) (liftV main_x)
        (liftV main_x_true) 100 (some (Real.sqrt (539 / 256))) = Except.ok (res, xf) ∧
      ¬ (res.is_converged = some true ∧ res.iter_final = some 1)) := by
  refine ⟨by norm_num, ?_, ?_⟩
  · have hx : (spec_iterate (exactOps 3) (liftM main_A) (liftV main_b) (liftV main_x) 2).x
        = liftV ![1, 1, 1] := by
      rw [exact_iterate_lift main_A_spd main_b main_x 2 main_resid_ne_zero]
      show liftV (spec_iterate (realOps 3) main_A main_b main_x 2).x = _
      rw [main_state_two.1]
    rw [← hx]
    exact (conjugateGradient_first_convergence (exactOps 3) (liftM main_A) (liftV main_b)
      (liftV main_x) (liftV main_x_true) 100 (some (1 / 10 ^ 15)) 1 (by norm_num)).1
      (fun j hj => by
        obtain rfl : j = 0 := by omega
        exact main_exact_one_fails (1 / 10 ^ 15) (by norm_num))
      (main_exact_two_passes (1 / 10 ^ 15) (by norm_num))
  · exact (conjugateGradient_first_convergence (exactOps 3) (liftM main_A) (liftV main_b)
      (liftV main_x) (liftV main_x_true) 100 (some (Real.sqrt (539 / 256))) 0
      (by norm_num)).2 xlt_irrefl (by
        rw [exact_iterate_lift main_A_spd main_b main_x 1
          (fun j hj => main_resid_ne_zero j (by omega)), main_state_one]
        show xsqrt (some (539 / 256)) = _
        simp [xsqrt]
        norm_num)

/-- C3 on the system of `main.cpp` in exact arithmetic with `max_iter = 1`: the first
iterate has residual norm `sqrt(539/256) ≥ 1e-15`, and the call returns
`is_converged = false`, `iter_final = 1` and histories of 2 entries. -/
theorem conjugateGradient_not_converged_witness :
    1 ≤ 1 ∧
    ∃ res xf, conjugateGradient (exactOps 3) (liftM main_A) (liftV main_b) (liftV main_x)
        (liftV main_x_true) 1 (some (1 / 10 ^ 15)) = Except.ok (res, xf) ∧
      res.is_converged = some false ∧ res.iter_final = some 1 ∧
      res.hist_relres_2.length = 2 ∧ res.hist_relerr_2.length = 2 ∧
      res.hist_relerr_A.length = 2 := by
  refine ⟨le_rfl, ?_⟩
  obtain ⟨res, h⟩ := conjugateGradient_not_converged (exactOps 3) (liftM main_A)
    (liftV main_b) (liftV main_x) (liftV main_x_true) 1 (some (1 / 10 ^ 15)) le_rfl
    (fun k hk => by
      obtain rfl : k = 0 := by omega
      exact main_exact_one_fails (1 / 10 ^ 15) (by norm_num))
  exact ⟨res, _, h⟩

open Matrix in
/-- C5 (as amended) on the system of `main.cpp`: `n = 3`, zero initial guess,
tolerance `1e-15`, `max_iter = 100`. -/
theorem conjugateGradient_exact_converges_witness :
    IsSPD main_A ∧ (0 : ℝ) < 1 / 10 ^ 15 ∧ ((3 : Nat) : Int) ≤ 100 ∧
    main_A *ᵥ main_x ≠ main_b ∧
    ∃ res xf, ∃ m : Nat,
      conjugateGradient (exactOps 3) (liftM main_A) (liftV main_b) (liftV main_x)
          (liftV main_x_true) 100 (some (1 / 10 ^ 15)) = Except.ok (res, xf) ∧
      res.is_converged = some true ∧ res.iter_final = some (m : Int) ∧ 1 ≤ m ∧ m ≤ 3 := by
  have hne : main_A *ᵥ main_x ≠ main_b := by
    intro h
    have h0 := congrFun h 0
    rw [main_b_eq, main_x, main_A_mulVec] at h0
    norm_num at h0
  exact ⟨main_A_spd, by norm_num, by norm_num, hne,
    conjugateGradient_exact_converges 3 main_A main_b main_x main_x_true (1 / 10 ^ 15) 100
      main_A_spd (by norm_num) (by norm_num) hne⟩

/-- C6 on the system of `main.cpp` in exact arithmetic, `max_iter = 100`. -/
theorem conjugateGradient_follows_recurrence_witness :
    (-1 : Int) ≤ 100 ∧
    ∃ res xf, ∃ m : Nat,
      conjugateGradient (exactOps 3) (liftM main_A) (liftV main_b) (liftV main_x)
          (liftV main_x_true) 100 (some (1 / 10 ^ 15)) = Except.ok (res, xf) ∧
      xf = (spec_iterate (exactOps 3) (liftM main_A) (liftV main_b) (liftV main_x) m).x ∧
      res.iter_final = some (m : Int) := by
  refine ⟨by norm_num, ?_⟩
  obtain ⟨-, -, res, xf, m, h1, -, h2, -, -, -, -, h3, -⟩ :=
    conjugateGradient_follows_recurrence (exactOps 3) (liftM main_A) (liftV main_b)
      (liftV main_x) (liftV main_x_true) 100 (some (1 / 10 ^ 15)) (by norm_num)
  exact ⟨res, xf, m, h1, h2, h3 (by norm_num)⟩

/-- C7 on the system of `main.cpp` in exact arithmetic, `max_iter = 100`: the entry of
index `0` of the residual history. -/
theorem conjugateGradient_history_witness :
    (-1 : Int) ≤ 100 ∧
    ∃ res xf, ∃ m : Nat,
      conjugateGradient (exactOps 3) (liftM main_A) (liftV main_b) (liftV main_x)
          (liftV main_x_true) 100 (some (1 / 10 ^ 15)) = Except.ok (res, xf) ∧
      res.iter_final = some (m : Int) ∧ res.hist_relres_2.length = m + 1 ∧
      res.hist_relres_2[0]?
        = some (xdiv (xsqrt (xdot
            (fun i => xsub (liftV main_b i) (xmatvec (liftM main_A) (liftV main_x) i))
            (fun i => xsub (liftV main_b i) (xmatvec (liftM main_A) (liftV main_x) i))))
          (xsqrt (xdot (liftV main_b) (liftV main_b)))) := by
  refine ⟨by norm_num, ?_⟩
  obtain ⟨res, xf, m, h1, h2, -, h3, -, -, h4⟩ :=
    conjugateGradient_history (exactOps 3) (liftM main_A) (liftV main_b)
      (liftV main_x) (liftV main_x_true) 100 (some (1 / 10 ^ 15)) (by norm_num)
  exact ⟨res, xf, m, h1, h2 (by norm_num), h3, (h4 0 (by omega)).1⟩

/-- C8 on the system of `main.cpp` in exact arithmetic, `max_iter = 100`. -/
theorem conjugateGradient_true_relres_witness :
    (-1 : Int) ≤ 100 ∧
    ∃ res xf, conjugateGradient (exactOps 3) (liftM main_A) (liftV main_b) (liftV main_x)
        (liftV main_x_true) 100 (some (1 / 10 ^ 15)) = Except.ok (res, xf) ∧
      res.true_relres_2
        = xdiv (xsqrt (xdot (fun i => xsub (xmatvec (liftM main_A) xf i) (liftV main_b i))
            (fun i => xsub (xmatvec (liftM main_A) xf i) (liftV main_b i))))
          (xsqrt (xdot (liftV main_b) (liftV main_b))) :=
  ⟨by norm_num, conjugateGradient_true_relres (exactOps 3) (liftM main_A) (liftV main_b)
    (liftV main_x) (liftV main_x_true) 100 (some (1 / 10 ^ 15)) (by norm_num)⟩

end linear_algebra

namespace bailey

theorem std_max_eq (x y : ℚ) : std_max x y = max x y := by
  unfold std_max
  split
  · rename_i h; exact (max_eq_right h.le).symm
  · rename_i h; exact (max_eq_left (not_lt.mp h)).symm

/-- C9: `a == b` is true exactly when, if `max(|a|,|b|) < 1e-15`, `|a − b| < 1e-15`,
and otherwise `|a − b| / max(|a|,|b|) < 1e-31`, both comparisons strict and the
arithmetic being that of `long double`; and `a != b` is the negation of `a == b`. -/
theorem operator_eq_iff (rnd : ℚ → ℚ) (a b : QXNumber) :
    (operator_eq rnd a b = true ↔
      if max |a.qx| |b.qx| < rnd (1 / 10 ^ 15) then
        |rnd (a.qx - b.qx)| < rnd (1 / 10 ^ 15)
      else
        rnd (|rnd (a.qx - b.qx)| / max |a.qx| |b.qx|) < rnd (1 / 10 ^ 31)) ∧
    operator_ne rnd a b = !(operator_eq rnd a b) ∧
    (operator_ne rnd a b = true ↔ ¬ operator_eq rnd a b = true) := by
  refine ⟨?_, rfl, ?_⟩
  · unfold operator_eq QX_FLOOR QX_EPSILON
    simp only [std_max_eq]
    split <;> simp
  · unfold operator_ne
    simp

/-- C10: for a format whose rounding is odd (round to nearest) and rounds the literals
`1e-15L` and `1e-31L` to positive numbers, `a == a` holds for every finite `a`, and
`(a == b) = (b == a)` for all finite `a`, `b`. -/
theorem operator_eq_refl_symm (rnd : ℚ → ℚ) (hneg : ∀ q, rnd (-q) = -rnd q)
    (h15 : 0 < rnd (1 / 10 ^ 15)) (h31 : 0 < rnd (1 / 10 ^ 31)) :
    (∀ a : QXNumber, operator_eq rnd a a = true) ∧
    (∀ a b : QXNumber, operator_eq rnd a b = operator_eq rnd b a) := by
  have h0 : rnd 0 = 0 := by
    have := hneg 0
    rw [neg_zero] at this
    linarith
  constructor
  · intro a
    unfold operator_eq QX_FLOOR QX_EPSILON
    simp only [sub_self, h0, abs_zero, zero_div]
    split
    · exact decide_eq_true h15
    · exact decide_eq_true h31
  · intro a b
    have hd : |rnd (a.qx - b.qx)| = |rnd (b.qx - a.qx)| := by
      rw [← neg_sub b.qx a.qx, hneg, abs_neg]
    have hm : std_max |a.qx| |b.qx| = std_max |b.qx| |a.qx| := by
      rw [std_max_eq, std_max_eq, max_comm]
    unfold operator_eq
    simp only [hd, hm]

/-- C10 at exact arithmetic (`rnd` the identity), on the values `1/3` and `2/3`. -/
theorem operator_eq_refl_symm_witness :
    (∀ q : ℚ, id (-q) = -id q) ∧ (0 : ℚ) < id (1 / 10 ^ 15) ∧ (0 : ℚ) < id (1 / 10 ^ 31) ∧
    operator_eq id ⟨1 / 3⟩ ⟨1 / 3⟩ = true ∧
    operator_eq id ⟨1 / 3⟩ ⟨2 / 3⟩ = operator_eq id ⟨2 / 3⟩ ⟨1 / 3⟩ :=
  ⟨fun _ => rfl, by norm_num, by norm_num,
    (operator_eq_refl_symm id (fun _ => rfl) (by norm_num) (by norm_num)).1 ⟨1 / 3⟩,
    (operator_eq_refl_symm id (fun _ => rfl) (by norm_num) (by norm_num)).2 ⟨1 / 3⟩ ⟨2 / 3⟩⟩

/-! ### Construction, arithmetic and narrowing of the scalar types -/

/-- C11 (counterexample): `QXNumber(2.0)` holds the value `2`, whereas the buffer that
the conversion primitive of the backend `zero_dqd_backend` produces for `2.0` denotes
`0`; the constructor does not go through `qxdqd_`. -/
theorem QXNumber_from_double_counterexample :
    (QXNumber.from_double 2).qx = 2 ∧ zero_dqd_backend.dqd 2 = 0 ∧
    (QXNumber.from_double 2).qx ≠ zero_dqd_backend.dqd 2 := by
  refine ⟨rfl, rfl, ?_⟩
  show (2 : ℚ) ≠ 0
  norm_num

/-- C11, as amended: for every `double` `d`, `DDNumber(d)` and `DQNumber(d)` hold exactly
the limb buffer that `dddqd_`, respectively `dqdqd_`, produces for `d`, whatever the
backend; `QXNumber(d)` holds `static_cast<long double>(d)`, the value `d` itself, and
no backend primitive takes part in it. -/
theorem from_double_limbs (dd dq : Backend (ℚ × ℚ)) (d : ℚ) :
    (DDNumber.from_double dd d).dd = dd.dqd d ∧
    (DQNumber.from_double dq d).dq = dq.dqd d ∧
    (QXNumber.from_double d).qx = d :=
  ⟨rfl, rfl, rfl⟩

/-- C12: for each kind, `a + b`, `a - b`, `a * b`, `a / b` and `sqrt(a)` return a value
whose limbs are the output of the kind's `add`, `sub`, `mul`, `div`, `sqrt` primitive
on the limbs of the operands in the order `(a, b)`.  The operands are passed by
reference to `const` and handed to the primitive as input buffers; in the embedding
they are values, which no operation changes. -/
theorem operators_delegate (dd dq : Backend (ℚ × ℚ)) (qx : Backend ℚ)
    (a b : DDNumber) (c d : DQNumber) (e f : QXNumber) :
    ((DDNumber.operator_add dd a b).dd = dd.add a.dd b.dd ∧
     (DDNumber.operator_sub dd a b).dd = dd.sub a.dd b.dd ∧
     (DDNumber.operator_mul dd a b).dd = dd.mul a.dd b.dd ∧
     (DDNumber.operator_div dd a b).dd = dd.div a.dd b.dd ∧
     (DDNumber.sqrt dd a).dd = dd.sqrt a.dd) ∧
    ((DQNumber.operator_add dq c d).dq = dq.add c.dq d.dq ∧
     (DQNumber.operator_sub dq c d).dq = dq.sub c.dq d.dq ∧
     (DQNumber.operator_mul dq c d).dq = dq.mul c.dq d.dq ∧
     (DQNumber.operator_div dq c d).dq = dq.div c.dq d.dq ∧
     (DQNumber.sqrt dq c).dq = dq.sqrt c.dq) ∧
    ((QXNumber.operator_add qx e f).qx = qx.add e.qx f.qx ∧
     (QXNumber.operator_sub qx e f).qx = qx.sub e.qx f.qx ∧
     (QXNumber.operator_mul qx e f).qx = qx.mul e.qx f.qx ∧
     (QXNumber.operator_div qx e f).qx = qx.div e.qx f.qx ∧
     (QXNumber.sqrt qx e).qx = qx.sqrt e.qx) :=
  ⟨⟨rfl, rfl, rfl, rfl, rfl⟩, ⟨rfl, rfl, rfl, rfl, rfl⟩, ⟨rfl, rfl, rfl, rfl, rfl⟩⟩

/-- C13: for each kind `to_double(a)` is a total function (no exception leaves it): it
is the `double` that `std::stod` parses from the backend's text for `a` at 32 (DD),
64 (DQ), 33 (QX) digits when the parse succeeds, and when `std::stod` throws it is the
first limb as a `double`: `a.dd[0]`, `a.dq[0]` narrowed, `a.qx` narrowed. -/
theorem to_double_spec (dd dq : Backend (ℚ × ℚ)) (qx : Backend ℚ)
    (stod : String → Option ℚ) (narrow : ℚ → ℚ) (a : DDNumber) (c : DQNumber)
    (e : QXNumber) :
    ((∀ v, stod (dd.toqd a.dd 32 80) = some v → DDNumber.to_double dd stod a = v) ∧
     (stod (dd.toqd a.dd 32 80) = none → DDNumber.to_double dd stod a = a.dd.1)) ∧
    ((∀ v, stod (dq.toqd c.dq 64 128) = some v → DQNumber.to_double dq stod narrow c = v) ∧
     (stod (dq.toqd c.dq 64 128) = none →
       DQNumber.to_double dq stod narrow c = narrow c.dq.1)) ∧
    ((∀ v, stod (qx.toqd e.qx 33 128) = some v → QXNumber.to_double qx stod narrow e = v) ∧
     (stod (qx.toqd e.qx 33 128) = none →
       QXNumber.to_double qx stod narrow e = narrow e.qx)) := by
  refine ⟨⟨fun v h => ?_, fun h => ?_⟩, ⟨fun v h => ?_, fun h => ?_⟩,
    ⟨fun v h => ?_, fun h => ?_⟩⟩
  · simp only [DDNumber.to_double, h]
  · simp only [DDNumber.to_double, h]
  · simp only [DQNumber.to_double, h]
  · simp only [DQNumber.to_double, h]
  · simp only [QXNumber.to_double, h]
  · simp only [QXNumber.to_double, h]

/-- C13 on the backend `zero_dqd_backend`, whose text is empty: with a parser that
returns `8` the result is `8`, with a parser that throws the result is the first limb. -/
theorem to_double_spec_witness :
    DDNumber.to_double leading_limb_backend (fun _ => some 8) ⟨(3, 1)⟩ = 8 ∧
    DDNumber.to_double leading_limb_backend (fun _ => none) ⟨(3, 1)⟩ = 3 ∧
    DQNumber.to_double leading_limb_backend (fun _ => none) id ⟨(5, 1)⟩ = 5 ∧
    QXNumber.to_double zero_dqd_backend (fun _ => some 8) id ⟨7⟩ = 8 ∧
    QXNumber.to_double zero_dqd_backend (fun _ => none) id ⟨7⟩ = 7 :=
  ⟨(to_double_spec leading_limb_backend leading_limb_backend zero_dqd_backend
      (fun _ => some 8) id ⟨(3, 1)⟩ ⟨(5, 1)⟩ ⟨7⟩).1.1 8 rfl,
   (to_double_spec leading_limb_backend leading_limb_backend zero_dqd_backend
      (fun _ => none) id ⟨(3, 1)⟩ ⟨(5, 1)⟩ ⟨7⟩).1.2 rfl,
   (to_double_spec leading_limb_backend leading_limb_backend zero_dqd_backend
      (fun _ => none) id ⟨(3, 1)⟩ ⟨(5, 1)⟩ ⟨7⟩).2.1.2 rfl,
   (to_double_spec leading_limb_backend leading_limb_backend zero_dqd_backend
      (fun _ => some 8) id ⟨(3, 1)⟩ ⟨(5, 1)⟩ ⟨7⟩).2.2.1 8 rfl,
   (to_double_spec leading_limb_backend leading_limb_backend zero_dqd_backend
      (fun _ => none) id ⟨(3, 1)⟩ ⟨(5, 1)⟩ ⟨7⟩).2.2.2 rfl⟩

end bailey

namespace io

/-- C17: `get_precision_digits` gives 15 for `"double"`, 30 for `"dd"`, 66 for `"dq"`,
33 for `"qx"`, and 15 for every other string, the comparison being case-sensitive
(`"DD"` gives 15). -/
theorem get_precision_digits_values :
    MatExporter.get_precision_digits "double" = 15 ∧
    MatExporter.get_precision_digits "dd" = 30 ∧
    MatExporter.get_precision_digits "dq" = 66 ∧
    MatExporter.get_precision_digits "qx" = 33 ∧
    MatExporter.get_precision_digits "DD" = 15 ∧
    ∀ s : String, s ≠ "double" → s ≠ "dd" → s ≠ "dq" → s ≠ "qx" →
      MatExporter.get_precision_digits s = 15 := by
  refine ⟨by decide, by decide, by decide, by decide, by decide, ?_⟩
  intro s h1 h2 h3 h4
  simp [MatExporter.get_precision_digits, h1, h2, h3, h4]

/-- C17 on the labels `"QX"` and `"quad"`, which are none of the four known ones. -/
theorem get_precision_digits_values_witness :
    "QX" ≠ "double" ∧ "QX" ≠ "dd" ∧ "QX" ≠ "dq" ∧ "QX" ≠ "qx" ∧
    MatExporter.get_precision_digits "QX" = 15 ∧
    MatExporter.get_precision_digits "quad" = 15 :=
  ⟨by decide, by decide, by decide, by decide,
    get_precision_digits_values.2.2.2.2.2 "QX" (by decide) (by decide) (by decide) (by decide),
    get_precision_digits_values.2.2.2.2.2 "quad" (by decide) (by decide) (by decide)
      (by decide)⟩

end io

namespace matrix_io

theorem static_cast_int_of_range (z : Int) (h1 : -2 ^ 31 ≤ z) (h2 : z < 2 ^ 31) :
    static_cast_int z = z := by
  unfold static_cast_int
  omega

/-- For header dimensions in the range of `int` the loop accepts the entries exactly when
every one of them is within the declared bounds, and then keeps all of them in order. -/
theorem loadTriplets_in_range {T : Type} (conv : ℚ → T) (header : matrix_market_header)
    (hr1 : -2 ^ 31 ≤ header.nrows) (hr2 : header.nrows < 2 ^ 31)
    (hc1 : -2 ^ 31 ≤ header.ncols) (hc2 : header.ncols < 2 ^ 31)
    (entries : List (Int × Int × ℚ)) :
    ((∃ e, loadTriplets conv header entries = Except.error e) ↔
      ∃ t ∈ entries, t.1 < 0 ∨ t.1 ≥ header.nrows ∨ t.2.1 < 0 ∨ t.2.1 ≥ header.ncols) ∧
    ((∀ t ∈ entries, 0 ≤ t.1 ∧ t.1 < header.nrows ∧ 0 ≤ t.2.1 ∧ t.2.1 < header.ncols) →
      loadTriplets conv header entries
        = Except.ok (entries.map
            (fun t => ({ row := t.1, col := t.2.1, value := conv t.2.2 } : Triplet T)))) := by
  induction entries with
  | nil => simp [loadTriplets]
  | cons t rest ih =>
    obtain ⟨row, col, value⟩ := t
    obtain ⟨ih1, ih2⟩ := ih
    have hn := static_cast_int_of_range header.nrows hr1 hr2
    have hm := static_cast_int_of_range header.ncols hc1 hc2
    by_cases hb : row < 0 ∨ row ≥ header.nrows ∨ col < 0 ∨ col ≥ header.ncols
    · have hload : loadTriplets conv header ((row, col, value) :: rest)
          = Except.error (LoadError.index_out_of_bounds row col header.nrows header.ncols) := by
        rw [loadTriplets, hn, hm, if_pos hb]
      constructor
      · rw [hload]
        exact ⟨fun _ => ⟨(row, col, value), List.mem_cons_self _ _, hb⟩, fun _ => ⟨_, rfl⟩⟩
      · intro hall
        have := hall (row, col, value) (List.mem_cons_self _ _)
        simp only at this
        omega
    · have hload : loadTriplets conv header ((row, col, value) :: rest)
          = match loadTriplets conv header rest with
            | Except.ok triplets =>
              Except.ok ({ row := row, col := col, value := conv value } :: triplets)
            | Except.error e => Except.error e := by
        rw [loadTriplets, hn, hm, if_neg hb]
      constructor
      · constructor
        · rintro ⟨e, he⟩
          rw [hload] at he
          cases hrest : loadTriplets conv header rest with
          | error e2 =>
            obtain ⟨t, ht, hbad⟩ := ih1.mp ⟨e2, hrest⟩
            exact ⟨t, List.mem_cons_of_mem _ ht, hbad⟩
          | ok ts =>
            rw [hrest] at he
            cases he
        · rintro ⟨t, ht, hbad⟩
          rcases List.mem_cons.mp ht with rfl | ht
          · exact absurd hbad hb
          · obtain ⟨e, he⟩ := ih1.mpr ⟨t, ht, hbad⟩
            exact ⟨e, by rw [hload, he]⟩
      · intro hall
        rw [hload, ih2 (fun t ht => hall t (List.mem_cons_of_mem _ ht))]
        rfl

/-- For header dimensions in the range of `int`, `loadMatrixMarket` fails exactly when the
file cannot be opened or read or some entry is outside the declared bounds, and
otherwise returns the `nrows × ncols` matrix set from all the entries, each value
converted by `T(value)`. -/
theorem loadMatrixMarket_in_range {T : Type} (conv : ℚ → T) (header : matrix_market_header)
    (hr1 : -2 ^ 31 ≤ header.nrows) (hr2 : header.nrows < 2 ^ 31)
    (hc1 : -2 ^ 31 ≤ header.ncols) (hc2 : header.ncols < 2 ^ 31)
    (entries : List (Int × Int × ℚ)) :
    ((∃ e, loadMatrixMarket conv (FileContent.triplets header entries) = Except.error e) ↔
      ∃ t ∈ entries, t.1 < 0 ∨ t.1 ≥ header.nrows ∨ t.2.1 < 0 ∨ t.2.1 ≥ header.ncols) ∧
    ((∀ t ∈ entries, 0 ≤ t.1 ∧ t.1 < header.nrows ∧ 0 ≤ t.2.1 ∧ t.2.1 < header.ncols) →
      loadMatrixMarket conv (FileContent.triplets header entries)
        = Except.ok
            { rows := header.nrows, cols := header.ncols,
              triplets := entries.map
                (fun t => ({ row := t.1, col := t.2.1, value := conv t.2.2 } : Triplet T)) }) ∧
    (∃ e, loadMatrixMarket conv FileContent.cannot_open = Except.error e) ∧
    (∀ what, ∃ e, loadMatrixMarket conv (FileContent.read_throws what) = Except.error e) := by
  obtain ⟨h1, h2⟩ := loadTriplets_in_range conv header hr1 hr2 hc1 hc2 entries
  refine ⟨?_, ?_, ⟨_, rfl⟩, fun _ => ⟨_, rfl⟩⟩
  · rw [← h1]
    constructor
    · rintro ⟨e, he⟩
      cases hl : loadTriplets conv header entries with
      | error e2 => exact ⟨e2, rfl⟩
      | ok ts =>
        simp only [loadMatrixMarket, hl] at he
        cases he
    · rintro ⟨e, he⟩
      exact ⟨e, by simp only [loadMatrixMarket, he]⟩
  · intro hall
    simp only [loadMatrixMarket, h2 hall]

/-- C14 (at the failing input): a file that declares a `3000000000 × 1` matrix with the
single entry `(row 0, col 0, value 1)`.  The entry is within the declared bounds, but
`static_cast<int>(3000000000)` is `-1294967296`, the range check `row >= ...` holds
and `loadMatrixMarket<QXNumber>` throws "Index out of bounds". -/
theorem loadMatrixMarket_large_header :
    static_cast_int 3000000000 = -1294967296 ∧
    ((0 : Int) ≤ 0 ∧ (0 : Int) < 3000000000 ∧ (0 : Int) < 1) ∧
    loadMatrixMarket bailey.QXNumber.from_double
        (FileContent.triplets { nrows := 3000000000, ncols := 1 } [(0, 0, 1)])
      = Except.error (LoadError.index_out_of_bounds 0 0 3000000000 1) := by
  refine ⟨by decide, by decide, ?_⟩
  simp [loadMatrixMarket, loadTriplets, static_cast_int]

end matrix_io

namespace linear_algebra

variable {T V M D : Type}

/-! ### Calls with `max_iter ≥ 1`, calls with `max_iter ≤ 0`, and the reporter -/

/-- With `max_iter ≥ 1` the loop executes `m ≥ 1` iterations, assigns both
`iter_final = m` and `is_converged`, and leaves the histories of the states `0 .. m`. -/
theorem cgRun_pos_fields (ops : Ops T V M D) (A : M) (b x x_true : V) (max_iter : Int)
    (tol : D) (h : 1 ≤ max_iter) :
    ∃ m : Nat, ∃ c : Bool, 1 ≤ m ∧ (m : Int) ≤ max_iter ∧
      (cgRun ops A b x x_true max_iter tol).iter_final = some (m : Int) ∧
      (cgRun ops A b x x_true max_iter tol).is_converged = some c ∧
      (cgRun ops A b x x_true max_iter tol).x = (spec_iterate ops A b x m).x ∧
      (cgRun ops A b x x_true max_iter tol).hist_relres_2
        = (List.range (m + 1)).map
            (fun j => spec_relres_2 ops b (spec_iterate ops A b x j)) ∧
      (cgRun ops A b x x_true max_iter tol).hist_relerr_2
        = (List.range (m + 1)).map
            (fun j => spec_relerr_2 ops x_true (spec_iterate ops A b x j)) ∧
      (cgRun ops A b x x_true max_iter tol).hist_relerr_A
        = (List.range (m + 1)).map
            (fun j => spec_relerr_A ops A x_true (spec_iterate ops A b x j)) := by
  obtain ⟨hx, -, l1, l2, l3, hT, hF⟩ := cgRun_pos ops A b x x_true max_iter tol h
  obtain ⟨f, hf⟩ : ∃ f : Nat, max_iter.toNat = f + 1 := ⟨max_iter.toNat - 1, by omega⟩
  have hgt : 0 < spec_run ops A b x tol max_iter.toNat 0 := by
    rw [hf]; exact spec_run_gt ops A b x tol f 0
  have hle := spec_run_le ops A b x tol max_iter.toNat 0
  cases hc : spec_converged ops tol
      (spec_iterate ops A b x (spec_run ops A b x tol max_iter.toNat 0))
  · have hm : spec_run ops A b x tol max_iter.toNat 0 = 0 + max_iter.toNat := by
      by_contra hne
      have := spec_run_stop ops A b x tol max_iter.toNat 0 (by omega)
      rw [hc] at this
      exact absurd this (by simp)
    refine ⟨_, false, hgt, by omega, ?_, (hF hc).2.1, hx, l1, l2, l3⟩
    rw [(hF hc).1, hm]
    congr 1
    omega
  · exact ⟨_, true, hgt, by omega, (hT hc).1, (hT hc).2.1, hx, l1, l2, l3⟩

theorem vector_at_natCast (v : List D) (n : Nat) : vector_at v (n : Int) = v[n]? := by
  simp [vector_at]

theorem getLast?_map_range_succ {α : Type} (g : Nat → α) (m : Nat) :
    ((List.range (m + 1)).map g).getLast? = some (g m) := by
  rw [List.range_succ, List.map_append]
  simp

theorem getElem?_map_range_succ {α : Type} (g : Nat → α) (m : Nat) :
    ((List.range (m + 1)).map g)[m]? = some (g m) := by
  rw [List.getElem?_map, List.getElem?_range (by omega)]
  rfl

/-- C15: for a `CGResult` returned by a call with `max_iter ≥ 1`, `iter_final = n` is
assigned, each of the three histories has `n + 1` entries, so the index `iter_final`
is within bounds and selects the last element of each, and `print_num_results` prints
the metrics of the state after the final iteration `n`. -/
theorem print_num_results_final (ops : Ops T V M D) (A : M) (b x x_true : V)
    (max_iter : Int) (tol : D) (problem_name : String) (h : 1 ≤ max_iter) :
    ∃ res xf, ∃ n : Nat, ∃ c : Bool,
      conjugateGradient ops A b x x_true max_iter tol = Except.ok (res, xf) ∧
      res.iter_final = some (n : Int) ∧
      res.hist_relres_2.length = n + 1 ∧ res.hist_relerr_2.length = n + 1 ∧
      res.hist_relerr_A.length = n + 1 ∧
      vector_at res.hist_relres_2 n = res.hist_relres_2.getLast? ∧
      vector_at res.hist_relerr_2 n = res.hist_relerr_2.getLast? ∧
      vector_at res.hist_relerr_A n = res.hist_relerr_A.getLast? ∧
      print_num_results res problem_name
        = some { problem := if problem_name.isEmpty then none else some problem_name,
                 is_converged := c, iter_final := n,
                 relres_2norm := spec_relres_2 ops b (spec_iterate ops A b x n),
                 true_relres_2norm := res.true_relres_2,
                 relerr_2norm := spec_relerr_2 ops x_true (spec_iterate ops A b x n),
                 relerr_Anorm := spec_relerr_A ops A x_true (spec_iterate ops A b x n) } := by
  obtain ⟨m, c, -, -, hfin, hconv, -, l1, l2, l3⟩ :=
    cgRun_pos_fields ops A b x x_true max_iter tol h
  refine ⟨_, _, m, c, conjugateGradient_ok ops A b x x_true max_iter tol (by omega), hfin,
    ?_, ?_, ?_, ?_, ?_, ?_, ?_⟩
  · show (cgRun ops A b x x_true max_iter tol).hist_relres_2.length = _
    rw [l1]; simp
  · show (cgRun ops A b x x_true max_iter tol).hist_relerr_2.length = _
    rw [l2]; simp
  · show (cgRun ops A b x x_true max_iter tol).hist_relerr_A.length = _
    rw [l3]; simp
  · show vector_at (cgRun ops A b x x_true max_iter tol).hist_relres_2 m
        = (cgRun ops A b x x_true max_iter tol).hist_relres_2.getLast?
    rw [l1, vector_at_natCast, getLast?_map_range_succ, getElem?_map_range_succ]
  · show vector_at (cgRun ops A b x x_true max_iter tol).hist_relerr_2 m
        = (cgRun ops A b x x_true max_iter tol).hist_relerr_2.getLast?
    rw [l2, vector_at_natCast, getLast?_map_range_succ, getElem?_map_range_succ]
  · show vector_at (cgRun ops A b x x_true max_iter tol).hist_relerr_A m
        = (cgRun ops A b x x_true max_iter tol).hist_relerr_A.getLast?
    rw [l3, vector_at_natCast, getLast?_map_range_succ, getElem?_map_range_succ]
  · simp only [print_num_results, hfin, hconv, l1, l2, l3, vector_at_natCast,
      getElem?_map_range_succ, Option.bind_eq_bind, Option.some_bind, Option.pure_def]

/-- C15 on the system of `main.cpp` in exact arithmetic, `max_iter = 100`. -/
theorem print_num_results_final_witness :
    (1 : Int) ≤ 100 ∧
    ∃ res xf, ∃ n : Nat,
      conjugateGradient (exactOps 3) (liftM main_A) (liftV main_b) (liftV main_x)
          (liftV main_x_true) 100 (some (1 / 10 ^ 15)) = Except.ok (res, xf) ∧
      res.iter_final = some (n : Int) ∧ res.hist_relres_2.length = n + 1 ∧
      vector_at res.hist_relres_2 n = res.hist_relres_2.getLast? ∧
      (print_num_results res "3x3 tridiagonal").isSome = true := by
  refine ⟨by norm_num, ?_⟩
  obtain ⟨res, xf, n, c, h1, h2, h3, -, -, h4, -, -, h5⟩ :=
    print_num_results_final (exactOps 3) (liftM main_A) (liftV main_b) (liftV main_x)
      (liftV main_x_true) 100 (some (1 / 10 ^ 15)) "3x3 tridiagonal" (by norm_num)
  exact ⟨res, xf, n, h1, h2, h3, h4, by rw [h5]; rfl⟩

/-- C18 (counterexample): the call of `main.cpp` with `max_iter = -2 ≤ 0` returns no
`CGResult`: `reserve(-1)` throws `std::length_error`. -/
theorem conjugateGradient_negative_max_iter_throws :
    (-2 : Int) ≤ 0 ∧
    conjugateGradient (exactOps 3) (liftM main_A) (liftV main_b) (liftV main_x)
        (liftV main_x_true) (-2) (some (1 / 10 ^ 15))
      = Except.error CGError.length_error :=
  ⟨by norm_num, rfl⟩

/-- C18, as amended: a call with `max_iter = 0` or `max_iter = -1` executes no iteration
and returns: `x` is unchanged, each history holds exactly the pre-loop metric,
`true_relres_2` is computed from the initial `x`, and `iter_final` and `is_converged`
are not assigned; a call with `max_iter ≤ -2` throws `std::length_error` from
`reserve` and returns nothing. -/
theorem conjugateGradient_nonpositive_max_iter (ops : Ops T V M D) (A : M) (b x x_true : V)
    (max_iter : Int) (tol : D) (h0 : max_iter ≤ 0) :
    (-1 ≤ max_iter →
      conjugateGradient ops A b x x_true max_iter tol
        = Except.ok
            ({ iter_final := none, is_converged := none,
               hist_relres_2 :=
                 [ops.to_double (ops.div
                   (ops.sqrt (ops.dot (ops.vsub b (ops.matvec A x))
                     (ops.vsub b (ops.matvec A x))))
                   (ops.sqrt (ops.dot b b)))],
               true_relres_2 :=
                 ops.to_double (ops.div
                   (ops.sqrt (ops.dot (ops.vsub (ops.matvec A x) b)
                     (ops.vsub (ops.matvec A x) b)))
                   (ops.sqrt (ops.dot b b))),
               hist_relerr_2 :=
                 [ops.to_double (ops.div
                   (ops.sqrt (ops.dot (ops.vsub x x_true) (ops.vsub x x_true)))
                   (ops.sqrt (ops.dot x_true x_true)))],
               hist_relerr_A :=
                 [ops.to_double (ops.div
                   (ops.sqrt (ops.dot (ops.matvec A (ops.vsub x x_true))
                     (ops.matvec A (ops.vsub x x_true))))
                   (ops.sqrt (ops.dot x_true x_true)))] }, x)) ∧
    (max_iter < -1 →
      conjugateGradient ops A b x x_true max_iter tol
        = Except.error CGError.length_error) := by
  constructor
  · intro h1
    rw [conjugateGradient_ok ops A b x x_true max_iter tol h1,
      cgRun_nonpos ops A b x x_true max_iter tol h0]
    rfl
  · intro h1
    exact (conjugateGradient_throws_iff ops A b x x_true max_iter tol).mpr h1

/-- C18 (as amended) on the system of `main.cpp` in exact arithmetic with
`max_iter = 0` and with `max_iter = -5`. -/
theorem conjugateGradient_nonpositive_max_iter_witness :
    (0 : Int) ≤ 0 ∧ (-1 : Int) ≤ 0 ∧ (-5 : Int) ≤ 0 ∧ (-5 : Int) < -1 ∧
    (∃ res, conjugateGradient (exactOps 3) (liftM main_A) (liftV main_b) (liftV main_x)
        (liftV main_x_true) 0 (some (1 / 10 ^ 15)) = Except.ok (res, liftV main_x) ∧
      res.iter_final = none ∧ res.is_converged = none ∧ res.hist_relres_2.length = 1) ∧
    conjugateGradient (exactOps 3) (liftM main_A) (liftV main_b) (liftV main_x)
        (liftV main_x_true) (-5) (some (1 / 10 ^ 15))
      = Except.error CGError.length_error :=
  ⟨by norm_num, by norm_num, by norm_num, by norm_num,
    ⟨_, (conjugateGradient_nonpositive_max_iter (exactOps 3) (liftM main_A) (liftV main_b)
      (liftV main_x) (liftV main_x_true) 0 (some (1 / 10 ^ 15)) (by norm_num)).1
      (by norm_num), rfl, rfl, rfl⟩,
    (conjugateGradient_nonpositive_max_iter (exactOps 3) (liftM main_A) (liftV main_b)
      (liftV main_x) (liftV main_x_true) (-5) (some (1 / 10 ^ 15)) (by norm_num)).2
      (by norm_num)⟩

end linear_algebra

namespace linear_algebra

variable {T V M D : Type}

/-! ### Exact arithmetic: the residual of the recurrence is the residual of the iterate -/

theorem xmul_none_right (a : Option ℝ) : xmul a none = none := by
  cases a <;> rfl

/-- The dot product with an undefined vector of positive size is undefined. -/
theorem xdot_none_right {n : Nat} (hn : 0 < n) (u v : Fin n → Option ℝ)
    (h : ∀ i, v i = none) : xdot u v = none := by
  unfold xdot
  cases hl : List.finRange n with
  | nil =>
    have := List.length_finRange n
    rw [hl] at this
    simp at this
    omega
  | cons i l =>
    rw [List.foldl_cons, h i, xmul_none_right]
    exact xdot_foldl_none u v l

theorem xmatvec_none {n : Nat} (hn : 0 < n) (A : Fin n → Fin n → Option ℝ)
    (x : Fin n → Option ℝ) (h : ∀ i, x i = none) (i : Fin n) : xmatvec A x i = none :=
  xdot_none_right hn (A i) x h

theorem xdot_foldl_some {n : Nat} (u v : Fin n → Option ℝ) (l : List (Fin n))
    (acc : Option ℝ) (c : ℝ)
    (h : l.foldl (fun a i => xadd a (xmul (u i) (v i))) acc = some c) :
    (∀ i ∈ l, ∃ a, u i = some a) ∧ ∃ a, acc = some a := by
  induction l generalizing acc with
  | nil => exact ⟨fun i hi => absurd hi (List.not_mem_nil i), c, h⟩
  | cons j l ih =>
    rw [List.foldl_cons] at h
    obtain ⟨h1, a, ha⟩ := ih _ h
    have hacc : ∃ a', acc = some a' := by
      cases acc with
      | none => exact absurd ha (by simp [xadd])
      | some a' => exact ⟨a', rfl⟩
    have huj : ∃ a', u j = some a' := by
      cases huj : u j with
      | none =>
        rw [huj] at ha
        have : xadd acc (xmul none (v j)) = none := xadd_none_right acc
        rw [this] at ha
        exact absurd ha (by simp)
      | some a' => exact ⟨a', rfl⟩
    refine ⟨fun i hi => ?_, hacc⟩
    rcases List.mem_cons.mp hi with rfl | hi
    · exact huj
    · exact h1 i hi

/-- A defined dot product has a defined first argument. -/
theorem exists_lift_of_xdot_some {n : Nat} (u v : Fin n → Option ℝ) (c : ℝ)
    (h : xdot u v = some c) : ∃ y : Fin n → ℝ, u = liftV y := by
  have h1 := (xdot_foldl_some u v (List.finRange n) (some 0) c h).1
  choose y hy using fun i => h1 i (List.mem_finRange i)
  exact ⟨y, funext hy⟩

theorem xdiv_some {a b : Option ℝ} {c : ℝ} (h : xdiv a b = some c) :
    ∃ a' b', a = some a' ∧ b = some b' := by
  cases a <;> cases b <;> simp [xdiv] at h ⊢

open Matrix in
/-- One step of the recurrence in exact arithmetic keeps `r = b − A·x`, both sides being
undefined together, and keeps `x` either defined in every component or undefined in
every component. -/
theorem exact_residual_step {n : Nat} (hn : 0 < n) (A : Matrix (Fin n) (Fin n) ℝ)
    (b : Fin n → ℝ) (s : SpecState (Option ℝ) (Fin n → Option ℝ))
    (hr : s.r = fun i => xsub (liftV b i) (xmatvec (liftM A) s.x i))
    (hx : (∃ y, s.x = liftV y) ∨ ∀ i, s.x i = none) :
    (spec_step (exactOps n) (liftM A) s).r
        = (fun i => xsub (liftV b i)
            (xmatvec (liftM A) (spec_step (exactOps n) (liftM A) s).x i)) ∧
    ((∃ y, (spec_step (exactOps n) (liftM A) s).x = liftV y) ∨
      ∀ i, (spec_step (exactOps n) (liftM A) s).x i = none) := by
  have hx' : (spec_step (exactOps n) (liftM A) s).x
      = fun i => xadd (s.x i)
          (xmul (xdiv s.rs_old (xdot s.p (xmatvec (liftM A) s.p))) (s.p i)) := rfl
  have hr' : (spec_step (exactOps n) (liftM A) s).r
      = fun i => xsub (s.r i)
          (xmul (xdiv s.rs_old (xdot s.p (xmatvec (liftM A) s.p)))
            (xmatvec (liftM A) s.p i)) := rfl
  rw [hx', hr']
  cases hα : xdiv s.rs_old (xdot s.p (xmatvec (liftM A) s.p)) with
  | none =>
    have hxn : ∀ i, (fun i => xadd (s.x i) (xmul none (s.p i))) i = none :=
      fun i => xadd_none_right (s.x i)
    refine ⟨?_, Or.inr hxn⟩
    funext i
    rw [xmatvec_none hn (liftM A) _ hxn i, xsub_none_right]
    exact xsub_none_right (s.r i)
  | some a =>
    obtain ⟨ρ, δ, -, hδ⟩ := xdiv_some hα
    obtain ⟨p, hp⟩ := exists_lift_of_xdot_some _ _ δ hδ
    rcases hx with ⟨y, hy⟩ | hnone
    · have hr2 : s.r = liftV (b - A *ᵥ y) := by
        rw [hr, hy, xmatvec_lift]
        rfl
      have hxnew : (fun i => xadd (s.x i) (xmul (some a) (s.p i))) = liftV (y + a • p) := by
        rw [hy, hp]
        rfl
      have hrnew : (fun i => xsub (s.r i) (xmul (some a) (xmatvec (liftM A) s.p i)))
          = liftV (b - A *ᵥ y - a • (A *ᵥ p)) := by
        rw [hr2, hp, xmatvec_lift]
        rfl
      rw [hxnew, hrnew]
      refine ⟨?_, Or.inl ⟨_, rfl⟩⟩
      rw [xmatvec_lift, mulVec_add, mulVec_smul]
      funext i
      show some _ = some _
      congr 1
      simp only [Pi.sub_apply, Pi.add_apply, Pi.smul_apply, smul_eq_mul]
      ring
    · have hxn : ∀ i, (fun i => xadd (s.x i) (xmul (some a) (s.p i))) i = none := by
        intro i
        show xadd (s.x i) _ = none
        rw [hnone i]
        rfl
      refine ⟨?_, Or.inr hxn⟩
      funext i
      rw [xmatvec_none hn (liftM A) _ hxn i, xsub_none_right]
      have : s.r i = none := by
        rw [hr]
        show xsub _ (xmatvec (liftM A) s.x i) = none
        rw [xmatvec_none hn (liftM A) _ hnone i, xsub_none_right]
      show xsub (s.r i) _ = none
      rw [this]
      rfl

/-- In exact arithmetic, whatever the matrix, every state of the recurrence has
`r = b − A·x`. -/
theorem exact_residual_invariant (n : Nat) (A : Matrix (Fin n) (Fin n) ℝ)
    (b x : Fin n → ℝ) (k : Nat) :
    (spec_iterate (exactOps n) (liftM A) (liftV b) (liftV x) k).r
        = (fun i => xsub (liftV b i)
            (xmatvec (liftM A)
              (spec_iterate (exactOps n) (liftM A) (liftV b) (liftV x) k).x i)) ∧
    ((∃ y, (spec_iterate (exactOps n) (liftM A) (liftV b) (liftV x) k).x = liftV y) ∨
      ∀ i, (spec_iterate (exactOps n) (liftM A) (liftV b) (liftV x) k).x i = none) := by
  rcases Nat.eq_zero_or_pos n with hn | hn
  · subst hn
    exact ⟨funext fun i => i.elim0, Or.inr fun i => i.elim0⟩
  · induction k with
    | zero => exact ⟨rfl, Or.inl ⟨x, rfl⟩⟩
    | succ k ih => exact exact_residual_step hn A b _ ih.1 ih.2

open Matrix in
/-- The squared norm of `A·x − b` is the squared norm of `b − A·x`, both undefined when
`x` is. -/
theorem xdot_residual_symm (n : Nat) (A : Matrix (Fin n) (Fin n) ℝ) (b : Fin n → ℝ)
    (x : Fin n → Option ℝ) (hx : (∃ y, x = liftV y) ∨ ∀ i, x i = none) :
    xdot (fun i => xsub (xmatvec (liftM A) x i) (liftV b i))
        (fun i => xsub (xmatvec (liftM A) x i) (liftV b i))
      = xdot (fun i => xsub (liftV b i) (xmatvec (liftM A) x i))
          (fun i => xsub (liftV b i) (xmatvec (liftM A) x i)) := by
  rcases Nat.eq_zero_or_pos n with hn | hn
  · subst hn
    rfl
  · rcases hx with ⟨y, rfl⟩ | hnone
    · rw [xmatvec_lift]
      have h1 : (fun i => xsub (liftV (A *ᵥ y) i) (liftV b i)) = liftV (A *ᵥ y - b) := rfl
      have h2 : (fun i => xsub (liftV b i) (liftV (A *ᵥ y) i)) = liftV (b - A *ᵥ y) := rfl
      rw [h1, h2, xdot_liftV, xdot_liftV, ← neg_sub b (A *ᵥ y), neg_dotProduct_neg]
    · rw [xdot_none hn, xdot_none hn]
      · intro i
        show xsub _ (xmatvec (liftM A) x i) = none
        rw [xmatvec_none hn (liftM A) x hnone i, xsub_none_right]
      · intro i
        show xsub (xmatvec (liftM A) x i) _ = none
        rw [xmatvec_none hn (liftM A) x hnone i]
        rfl

/-- C19: in exact arithmetic, for every matrix `A`, every `b` and initial `x`, each state
of the recurrence has `r_k = b − A·x_k` (both sides undefined together when a division
of the run was undefined); consequently a call that returns reports a `true_relres_2`
equal to the last entry of `hist_relres_2`, which is entry `iter_final` whenever
`iter_final` is assigned (always for `max_iter ≥ 1`). -/
theorem conjugateGradient_exact_true_relres (n : Nat) (A : Matrix (Fin n) (Fin n) ℝ)
    (b x x_true : Fin n → ℝ) (tol : Option ℝ) (max_iter : Int) (h : -1 ≤ max_iter) :
    (∀ k, (spec_iterate (exactOps n) (liftM A) (liftV b) (liftV x) k).r
        = fun i => xsub (liftV b i)
            (xmatvec (liftM A)
              (spec_iterate (exactOps n) (liftM A) (liftV b) (liftV x) k).x i)) ∧
    ∃ res xf, conjugateGradient (exactOps n) (liftM A) (liftV b) (liftV x) (liftV x_true)
          max_iter tol = Except.ok (res, xf) ∧
      res.hist_relres_2.getLast? = some res.true_relres_2 ∧
      (∀ m : Nat, res.iter_final = some (m : Int) →
        res.hist_relres_2[m]? = some res.true_relres_2) ∧
      (1 ≤ max_iter → ∃ m : Nat, res.iter_final = some (m : Int)) := by
  refine ⟨fun k => (exact_residual_invariant n A b x k).1, ?_⟩
  obtain ⟨m, -, hx, -, l1, -, -, -, -, h1, hn⟩ :=
    cgRun_general (exactOps n) (liftM A) (liftV b) (liftV x) (liftV x_true) max_iter tol
  have hinv := exact_residual_invariant n A b x m
  have hval : spec_relres_2 (exactOps n) (liftV b)
        (spec_iterate (exactOps n) (liftM A) (liftV b) (liftV x) m)
      = xdiv (xsqrt (xdot
          (fun i => xsub (xmatvec (liftM A)
            (cgRun (exactOps n) (liftM A) (liftV b) (liftV x) (liftV x_true) max_iter tol).x i)
            (liftV b i))
          (fun i => xsub (xmatvec (liftM A)
            (cgRun (exactOps n) (liftM A) (liftV b) (liftV x) (liftV x_true) max_iter tol).x i)
            (liftV b i))))
        (xsqrt (xdot (liftV b) (liftV b))) := by
    rw [hx, xdot_residual_symm n A b _ hinv.2]
    show xdiv (xsqrt (xdot _ _)) _ = _
    rw [hinv.1]
    rfl
  refine ⟨_, _, conjugateGradient_ok (exactOps n) (liftM A) (liftV b) (liftV x)
    (liftV x_true) max_iter tol h, ?_, ?_, fun hpos => ⟨m, h1 hpos⟩⟩
  · show (cgRun (exactOps n) (liftM A) (liftV b) (liftV x) (liftV x_true)
        max_iter tol).hist_relres_2.getLast? = some _
    rw [l1, getLast?_map_range_succ, hval]
    rfl
  · intro m' hm'
    have hmm : (m' : Int) = (m : Int) := hn _ hm'
    have hmm' : m' = m := by omega
    subst hmm'
    show (cgRun (exactOps n) (liftM A) (liftV b) (liftV x) (liftV x_true)
        max_iter tol).hist_relres_2[m']? = some _
    rw [l1, getElem?_map_range_succ, hval]
    rfl

/-- C19 on the system of `main.cpp` in exact arithmetic, `max_iter = 100`. -/
theorem conjugateGradient_exact_true_relres_witness :
    (-1 : Int) ≤ 100 ∧
    ∃ res xf, conjugateGradient (exactOps 3) (liftM main_A) (liftV main_b) (liftV main_x)
          (liftV main_x_true) 100 (some (1 / 10 ^ 15)) = Except.ok (res, xf) ∧
      res.hist_relres_2.getLast? = some res.true_relres_2 ∧
      ∃ m : Nat, res.iter_final = some (m : Int) ∧
        res.hist_relres_2[m]? = some res.true_relres_2 := by
  refine ⟨by norm_num, ?_⟩
  obtain ⟨-, res, xf, h1, h2, h3, h4⟩ :=
    conjugateGradient_exact_true_relres 3 main_A main_b main_x main_x_true
      (some (1 / 10 ^ 15)) 100 (by norm_num)
  obtain ⟨m, hm⟩ := h4 (by norm_num)
  exact ⟨res, xf, h1, h2, m, hm, h3 m hm⟩

end linear_algebra

namespace linear_algebra

variable {T V M D : Type}

/-! ### No convergence test before the first iteration -/

open Matrix in
/-- When the initial guess solves the system, the state on entry to the loop in exact
arithmetic has `rs_old = 0`, passes the convergence test for every tolerance `> 0`, and
gives the first iteration the denominator `p·(A p) = 0`, so its step length `0/0` is
undefined. -/
theorem exact_start_at_solution (n : Nat) (A : Matrix (Fin n) (Fin n) ℝ) (b x : Fin n → ℝ)
    (tol : ℝ) (htol : 0 < tol) (hsol : A *ᵥ x = b) :
    (spec_iterate (exactOps n) (liftM A) (liftV b) (liftV x) 0).rs_old = some 0 ∧
    spec_converged (exactOps n) (some tol)
      (spec_iterate (exactOps n) (liftM A) (liftV b) (liftV x) 0) = true ∧
    xdot (spec_iterate (exactOps n) (liftM A) (liftV b) (liftV x) 0).p
      (xmatvec (liftM A) (spec_iterate (exactOps n) (liftM A) (liftV b) (liftV x) 0).p)
      = some 0 ∧
    xdiv (spec_iterate (exactOps n) (liftM A) (liftV b) (liftV x) 0).rs_old
      (xdot (spec_iterate (exactOps n) (liftM A) (liftV b) (liftV x) 0).p
        (xmatvec (liftM A) (spec_iterate (exactOps n) (liftM A) (liftV b) (liftV x) 0).p))
      = none := by
  have hinit : spec_init (realOps n) A b x = { x := x, r := 0, p := 0, rs_old := 0 } := by
    have hr : b - A *ᵥ x = 0 := by rw [hsol, sub_self]
    show ({ x := x, r := b - A *ᵥ x, p := b - A *ᵥ x,
            rs_old := (b - A *ᵥ x) ⬝ᵥ (b - A *ᵥ x) } : SpecState ℝ (Fin n → ℝ)) = _
    rw [hr, dotProduct_zero]
  have h0 : spec_iterate (exactOps n) (liftM A) (liftV b) (liftV x) 0
      = liftState { x := x, r := 0, p := 0, rs_old := 0 } := by
    show spec_init (exactOps n) (liftM A) (liftV b) (liftV x) = _
    rw [exact_init_lift, hinit]
  rw [h0]
  have hden : xdot (liftV (0 : Fin n → ℝ)) (xmatvec (liftM A) (liftV 0)) = some 0 := by
    rw [xmatvec_lift, xdot_liftV, zero_dotProduct]
  refine ⟨rfl, ?_, hden, ?_⟩
  · rw [exact_converged_lift _ _ (le_refl (0 : ℝ))]
    simp [htol]
  · show xdiv (some 0) (xdot (liftV 0) (xmatvec (liftM A) (liftV 0))) = none
    rw [hden]
    simp [xdiv]

open Matrix in
/-- C20: for every input with `max_iter ≥ 1` the call executes at least one iteration,
whatever the initial residual: `iter_final = m ≥ 1` and each history has `m + 1 ≥ 2`
entries.  In exact arithmetic, when the initial guess solves the system (`r₀ = 0`), the
state on entry already passes the test `sqrt(r₀·r₀) < tolerance`, and the first
iteration still divides `rs_old = 0` by `p·(A p) = 0`: its step length is undefined, and
the call returns `iter_final = max_iter`, `is_converged = false`. -/
theorem conjugateGradient_no_initial_test (ops : Ops T V M D) (A : M) (b x x_true : V)
    (max_iter : Int) (tol : D) (h : 1 ≤ max_iter) :
    (∃ res xf, ∃ m : Nat,
      conjugateGradient ops A b x x_true max_iter tol = Except.ok (res, xf) ∧
      res.iter_final = some (m : Int) ∧ 1 ≤ m ∧
      res.hist_relres_2.length = m + 1 ∧ res.hist_relerr_2.length = m + 1 ∧
      res.hist_relerr_A.length = m + 1) ∧
    ∀ (n : Nat) (A0 : Matrix (Fin n) (Fin n) ℝ) (b0 x0 xt : Fin n → ℝ) (tol0 : ℝ),
      0 < n → 0 < tol0 → A0 *ᵥ x0 = b0 →
      spec_converged (exactOps n) (some tol0)
        (spec_iterate (exactOps n) (liftM A0) (liftV b0) (liftV x0) 0) = true ∧
      (spec_iterate (exactOps n) (liftM A0) (liftV b0) (liftV x0) 0).rs_old = some 0 ∧
      xdot (spec_iterate (exactOps n) (liftM A0) (liftV b0) (liftV x0) 0).p
        (xmatvec (liftM A0) (spec_iterate (exactOps n) (liftM A0) (liftV b0) (liftV x0) 0).p)
        = some 0 ∧
      ∃ res xf, conjugateGradient (exactOps n) (liftM A0) (liftV b0) (liftV x0) (liftV xt)
          max_iter (some tol0) = Except.ok (res, xf) ∧
        res.iter_final = some max_iter ∧ res.is_converged = some false := by
  constructor
  · obtain ⟨m, c, hm1, -, hfin, -, -, l1, l2, l3⟩ :=
      cgRun_pos_fields ops A b x x_true max_iter tol h
    refine ⟨_, _, m, conjugateGradient_ok ops A b x x_true max_iter tol (by omega), hfin, hm1,
      ?_, ?_, ?_⟩
    · show (cgRun ops A b x x_true max_iter tol).hist_relres_2.length = _
      rw [l1]; simp
    · show (cgRun ops A b x x_true max_iter tol).hist_relerr_2.length = _
      rw [l2]; simp
    · show (cgRun ops A b x x_true max_iter tol).hist_relerr_A.length = _
      rw [l3]; simp
  · intro n A0 b0 x0 xt tol0 hn htol hsol
    obtain ⟨hrs, hpass, hden, -⟩ := exact_start_at_solution n A0 b0 x0 tol0 htol hsol
    obtain ⟨k, hk⟩ : ∃ k : Nat, max_iter = (k : Int) := ⟨max_iter.toNat, by omega⟩
    obtain ⟨res, xf, hres, hc, hf⟩ :=
      conjugateGradient_exact_at_solution n hn A0 b0 x0 xt (some tol0) k (by omega) hsol
    rw [hk]
    exact ⟨hpass, hrs, hden, res, xf, hres, hf, hc⟩

/-- C20 on the system of `main.cpp` in exact arithmetic with the initial guess
`x = x_true = [1,1,1]`, `max_iter = 100`. -/
theorem conjugateGradient_no_initial_test_witness :
    (1 : Int) ≤ 100 ∧
    (∃ res xf, ∃ m : Nat,
      conjugateGradient (exactOps 3) (liftM main_A) (liftV main_b) (liftV main_x_true)
          (liftV main_x_true) 100 (some (1 / 10 ^ 15)) = Except.ok (res, xf) ∧
      res.iter_final = some (m : Int) ∧ 1 ≤ m ∧ res.hist_relres_2.length = m + 1) ∧
    spec_converged (exactOps 3) (some (1 / 10 ^ 15))
      (spec_iterate (exactOps 3) (liftM main_A) (liftV main_b) (liftV main_x_true) 0) = true ∧
    ∃ res xf, conjugateGradient (exactOps 3) (liftM main_A) (liftV main_b)
        (liftV main_x_true) (liftV main_x_true) 100 (some (1 / 10 ^ 15))
          = Except.ok (res, xf) ∧
      res.iter_final = some 100 ∧ res.is_converged = some false := by
  have key := conjugateGradient_no_initial_test (exactOps 3) (liftM main_A) (liftV main_b)
    (liftV main_x_true) (liftV main_x_true) 100 (some (1 / 10 ^ 15)) (by norm_num)
  obtain ⟨res, xf, m, h1, h2, h3, h4, -, -⟩ := key.1
  obtain ⟨hpass, -, -, hres⟩ := key.2 3 main_A main_b main_x_true main_x_true (1 / 10 ^ 15)
    (by norm_num) (by norm_num) rfl
  exact ⟨by norm_num, ⟨res, xf, m, h1, h2, h3, h4⟩, hpass, hres⟩

end linear_algebra

namespace bailey

/-! ### Overlap and gaps of the `QXNumber` comparisons -/

/-- The absolute value of a representable number is representable, the rounding being
odd. -/
theorem rnd_abs_of_rep (rnd : ℚ → ℚ) (hneg : ∀ q, rnd (-q) = -rnd q) (x : ℚ)
    (hx : rnd x = x) : rnd |x| = |x| := by
  rcases abs_cases x with ⟨h, _⟩ | ⟨h, _⟩
  · rw [h, hx]
  · rw [h, hneg, hx]

/-- The larger of two representable magnitudes is representable. -/
theorem rnd_max_abs_of_rep (rnd : ℚ → ℚ) (hneg : ∀ q, rnd (-q) = -rnd q) (x y : ℚ)
    (hx : rnd x = x) (hy : rnd y = y) : rnd (max |x| |y|) = max |x| |y| := by
  rcases max_choice |x| |y| with h | h
  · rw [h]; exact rnd_abs_of_rep rnd hneg x hx
  · rw [h]; exact rnd_abs_of_rep rnd hneg y hy

/-- Above the floor `a < b` and `a == b` exclude each other, for a rounding that is
monotone, idempotent and odd, on representable operands. -/
theorem operator_lt_eq_exclusive (rnd : ℚ → ℚ) (hmono : Monotone rnd)
    (hidem : ∀ q, rnd (rnd q) = rnd q) (hneg : ∀ q, rnd (-q) = -rnd q)
    (a b : QXNumber) (ha : rnd a.qx = a.qx) (hb : rnd b.qx = b.qx)
    (hmax : 1 / 10 ^ 15 ≤ max |a.qx| |b.qx|) :
    ¬ (operator_lt rnd a b = true ∧ operator_eq rnd a b = true) := by
  rintro ⟨hlt, heq⟩
  have hmrep := rnd_max_abs_of_rep rnd hneg a.qx b.qx ha hb
  have hmpos : 0 < max |a.qx| |b.qx| := lt_of_lt_of_le (by norm_num) hmax
  have hF : ¬ max |a.qx| |b.qx| < rnd (1 / 10 ^ 15) := by
    have h := hmono hmax
    rw [hmrep] at h
    exact not_lt.mpr h
  have hdrep : rnd |rnd (a.qx - b.qx)| = |rnd (a.qx - b.qx)| :=
    rnd_abs_of_rep rnd hneg _ (hidem _)
  have hd : rnd (b.qx - a.qx) ≤ |rnd (a.qx - b.qx)| := by
    have h : a.qx - b.qx = -(b.qx - a.qx) := by ring
    rw [h, hneg, abs_neg]
    exact le_abs_self _
  unfold operator_eq QX_FLOOR QX_EPSILON at heq
  simp only [std_max_eq] at heq
  rw [if_neg hF] at heq
  have heq2 := of_decide_eq_true heq
  unfold operator_lt QX_EPSILON at hlt
  simp only [std_max_eq] at hlt
  have hlt2 := of_decide_eq_true hlt
  have h1 : rnd (1 / 10 ^ 31) * max |a.qx| |b.qx| < |rnd (a.qx - b.qx)| := by
    by_contra h
    have h2 := hmono (not_lt.mp h)
    rw [hdrep] at h2
    exact absurd (lt_of_lt_of_le hlt2 hd) (not_lt.mpr h2)
  have h3 : rnd (1 / 10 ^ 31) ≤ |rnd (a.qx - b.qx)| / max |a.qx| |b.qx| :=
    (le_div_iff₀ hmpos).mpr h1.le
  have h4 := hmono h3
  rw [hidem] at h4
  exact absurd heq2 (not_lt.mpr h4)

/-- Below the floor `0 < b` and `0 == b` hold together for every representable
`0 < b < 1e-15` that exceeds the rounded product `QX_EPSILON * b`. -/
theorem operator_lt_eq_below_floor (rnd : ℚ → ℚ) (hneg : ∀ q, rnd (-q) = -rnd q)
    (b : ℚ) (hb : rnd b = b) (hpos : 0 < b) (hfl : b < QX_FLOOR rnd)
    (hsmall : rnd (QX_EPSILON rnd * b) < b) :
    operator_lt rnd ⟨0⟩ ⟨b⟩ = true ∧ operator_eq rnd ⟨0⟩ ⟨b⟩ = true := by
  have hm : std_max |(0 : ℚ)| |b| = b := by
    rw [std_max_eq, abs_zero, abs_of_pos hpos, max_eq_right hpos.le]
  constructor
  · unfold operator_lt
    simp only [hm, sub_zero, hb]
    exact decide_eq_true hsmall
  · unfold operator_eq
    simp only [hm, zero_sub, hneg, hb, abs_neg]
    rw [if_pos hfl, abs_of_pos hpos]
    exact decide_eq_true hfl

/-- In exact arithmetic `a < b`, `a == b` and `a > b` are all false exactly when
`max(|a|,|b|)` is at least `1e-15` and `|a − b| = 1e-31 * max(|a|,|b|)`. -/
theorem operators_all_false_iff (a b : QXNumber) :
    (operator_lt id a b = false ∧ operator_eq id a b = false ∧
      operator_gt id a b = false) ↔
    (1 / 10 ^ 15 ≤ max |a.qx| |b.qx| ∧
      |a.qx - b.qx| = 1 / 10 ^ 31 * max |a.qx| |b.qx|) := by
  have hmnn : 0 ≤ max |a.qx| |b.qx| := le_max_of_le_left (abs_nonneg _)
  have hcomm : max |b.qx| |a.qx| = max |a.qx| |b.qx| := max_comm _ _
  have hle : |a.qx - b.qx| ≤ 2 * max |a.qx| |b.qx| := by
    have h1 := abs_sub a.qx b.qx
    have h2 := le_max_left |a.qx| |b.qx|
    have h3 := le_max_right |a.qx| |b.qx|
    linarith
  unfold operator_gt operator_lt operator_eq QX_FLOOR QX_EPSILON
  simp only [std_max_eq, id, hcomm, decide_eq_false_iff_not, not_lt, gt_iff_lt]
  constructor
  · rintro ⟨h1, h2, h3⟩
    have habs : |a.qx - b.qx| ≤ 1 / 10 ^ 31 * max |a.qx| |b.qx| := by
      rw [abs_le]
      constructor <;> linarith
    by_cases hF : max |a.qx| |b.qx| < 1 / 10 ^ 15
    · rw [if_pos hF] at h2
      have h4 := of_decide_eq_false h2
      exfalso
      have h5 : (1 : ℚ) / 10 ^ 31 * max |a.qx| |b.qx| ≤ 1 / 10 ^ 31 * (1 / 10 ^ 15) :=
        mul_le_mul_of_nonneg_left hF.le (by norm_num)
      have h6 : (1 : ℚ) / 10 ^ 31 * (1 / 10 ^ 15) < 1 / 10 ^ 15 := by norm_num
      exact h4 (lt_of_le_of_lt habs (lt_of_le_of_lt h5 h6))
    · rw [if_neg hF] at h2
      have h4 := not_lt.mp (of_decide_eq_false h2)
      have hmpos : 0 < max |a.qx| |b.qx| :=
        lt_of_lt_of_le (by norm_num) (not_lt.mp hF)
      exact ⟨not_lt.mp hF, le_antisymm habs ((le_div_iff₀ hmpos).mp h4)⟩
  · rintro ⟨hF, hd⟩
    have hmpos : 0 < max |a.qx| |b.qx| := lt_of_lt_of_le (by norm_num) hF
    have h1 := le_abs_self (a.qx - b.qx)
    have h2 := neg_abs_le (a.qx - b.qx)
    refine ⟨by linarith, ?_, by linarith⟩
    rw [if_neg (not_lt.mpr hF)]
    apply decide_eq_false
    rw [not_lt, le_div_iff₀ hmpos]
    exact hd.ge

/-- When `a < b`, `a == b` and `a > b` are all false, `a <= b` and `a >= b` are false
and `a != b` is true. -/
theorem operators_of_all_false (rnd : ℚ → ℚ) (a b : QXNumber)
    (hlt : operator_lt rnd a b = false) (heq : operator_eq rnd a b = false)
    (hgt : operator_gt rnd a b = false) :
    operator_le rnd a b = false ∧ operator_ge rnd a b = false ∧
      operator_ne rnd a b = true := by
  unfold operator_le operator_ge operator_ne
  rw [hlt, heq, hgt]
  exact ⟨rfl, rfl, rfl⟩

/-- In exact arithmetic `0 < 1e-16` and `0 == 1e-16` are both true. -/
theorem operator_lt_eq_example :
    operator_lt id ⟨0⟩ ⟨1 / 10 ^ 16⟩ = true ∧ operator_eq id ⟨0⟩ ⟨1 / 10 ^ 16⟩ = true :=
  operator_lt_eq_below_floor id (fun _ => rfl) (1 / 10 ^ 16) rfl (by norm_num)
    (by unfold QX_FLOOR; norm_num) (by unfold QX_EPSILON; norm_num)

/-- In exact arithmetic none of `a < b`, `a == b`, `a > b` holds at `a = 1 − 1e-31`,
`b = 1`. -/
theorem operators_all_false_example :
    operator_lt id ⟨1 - 1 / 10 ^ 31⟩ ⟨1⟩ = false ∧
    operator_eq id ⟨1 - 1 / 10 ^ 31⟩ ⟨1⟩ = false ∧
    operator_gt id ⟨1 - 1 / 10 ^ 31⟩ ⟨1⟩ = false := by
  rw [operators_all_false_iff]
  have h1 : |(1 : ℚ) - 1 / 10 ^ 31| = 1 - 1 / 10 ^ 31 := abs_of_pos (by norm_num)
  have h2 : |(1 : ℚ) - 1 / 10 ^ 31 - 1| = 1 / 10 ^ 31 := by
    rw [abs_of_neg (by norm_num)]; ring
  have h3 : max ((1 : ℚ) - 1 / 10 ^ 31) 1 = 1 := max_eq_right (by norm_num)
  simp only [h1, h2, abs_one, h3]
  norm_num

/-- C21: below the floor the operators `<` and `==` are not mutually exclusive: in
exact arithmetic `0 < 1e-16` and `0 == 1e-16` are both true, and under a rounding that
is monotone, idempotent and odd both are true of `0` and every representable
`0 < b < 1e-15` that exceeds the rounded `QX_EPSILON * b`; whereas for all
representable `a`, `b` with `max(|a|,|b|) ≥ 1e-15` at most one of `a < b` and `a == b`
is true. -/
theorem operator_lt_eq_overlap (rnd : ℚ → ℚ) (hmono : Monotone rnd)
    (hidem : ∀ q, rnd (rnd q) = rnd q) (hneg : ∀ q, rnd (-q) = -rnd q) :
    (operator_lt id ⟨0⟩ ⟨1 / 10 ^ 16⟩ = true ∧
      operator_eq id ⟨0⟩ ⟨1 / 10 ^ 16⟩ = true) ∧
    (∀ b : ℚ, rnd b = b → 0 < b → b < QX_FLOOR rnd → rnd (QX_EPSILON rnd * b) < b →
      operator_lt rnd ⟨0⟩ ⟨b⟩ = true ∧ operator_eq rnd ⟨0⟩ ⟨b⟩ = true) ∧
    (∀ a b : QXNumber, rnd a.qx = a.qx → rnd b.qx = b.qx →
      1 / 10 ^ 15 ≤ max |a.qx| |b.qx| →
      ¬ (operator_lt rnd a b = true ∧ operator_eq rnd a b = true)) :=
  ⟨operator_lt_eq_example,
   fun b hb hpos hfl hsmall => operator_lt_eq_below_floor rnd hneg b hb hpos hfl hsmall,
   fun a b ha hb hmax => operator_lt_eq_exclusive rnd hmono hidem hneg a b ha hb hmax⟩

/-- C21 in exact arithmetic: `0 < 1e-16` and `0 == 1e-16` are both true, and of
`1 < 2` and `1 == 2` not both. -/
theorem operator_lt_eq_overlap_witness :
    (operator_lt id ⟨0⟩ ⟨1 / 10 ^ 16⟩ = true ∧
      operator_eq id ⟨0⟩ ⟨1 / 10 ^ 16⟩ = true) ∧
    ¬ (operator_lt id ⟨1⟩ ⟨2⟩ = true ∧ operator_eq id ⟨1⟩ ⟨2⟩ = true) :=
  ⟨(operator_lt_eq_overlap id monotone_id (fun _ => rfl) (fun _ => rfl)).2.1
      (1 / 10 ^ 16) rfl (by norm_num) (by unfold QX_FLOOR; norm_num)
      (by unfold QX_EPSILON; norm_num),
   (operator_lt_eq_overlap id monotone_id (fun _ => rfl) (fun _ => rfl)).2.2
      ⟨1⟩ ⟨2⟩ rfl rfl (by norm_num)⟩

/-- C22: the comparison operators are not total: in exact arithmetic, at
`a = 1 − 1e-31` and `b = 1`, where `|a − b| = 1e-31 * max(|a|,|b|)`, the operators
`a < b`, `a == b` and `a > b` are all false; and whenever these three are false,
under any rounding, `a <= b` and `a >= b` are false and `a != b` is true.  In exact
arithmetic the three are false together exactly when `max(|a|,|b|) ≥ 1e-15` and
`|a − b| = 1e-31 * max(|a|,|b|)`. -/
theorem operators_not_total :
    (operator_lt id ⟨1 - 1 / 10 ^ 31⟩ ⟨1⟩ = false ∧
      operator_eq id ⟨1 - 1 / 10 ^ 31⟩ ⟨1⟩ = false ∧
      operator_gt id ⟨1 - 1 / 10 ^ 31⟩ ⟨1⟩ = false) ∧
    |(1 - 1 / 10 ^ 31 : ℚ) - 1| = 1 / 10 ^ 31 * max |(1 - 1 / 10 ^ 31 : ℚ)| |(1 : ℚ)| ∧
    (∀ (rnd : ℚ → ℚ) (a b : QXNumber), operator_lt rnd a b = false →
      operator_eq rnd a b = false → operator_gt rnd a b = false →
      operator_le rnd a b = false ∧ operator_ge rnd a b = false ∧
        operator_ne rnd a b = true) ∧
    (∀ a b : QXNumber,
      (operator_lt id a b = false ∧ operator_eq id a b = false ∧
        operator_gt id a b = false) ↔
      (1 / 10 ^ 15 ≤ max |a.qx| |b.qx| ∧
        |a.qx - b.qx| = 1 / 10 ^ 31 * max |a.qx| |b.qx|)) :=
  ⟨operators_all_false_example,
   ((operators_all_false_iff ⟨1 - 1 / 10 ^ 31⟩ ⟨1⟩).mp operators_all_false_example).2,
   operators_of_all_false, operators_all_false_iff⟩

/-- C22 at `a = 1 − 1e-31`, `b = 1` in exact arithmetic: `a <= b` and `a >= b` are
false and `a != b` is true. -/
theorem operators_not_total_witness :
    operator_le id ⟨1 - 1 / 10 ^ 31⟩ ⟨1⟩ = false ∧
    operator_ge id ⟨1 - 1 / 10 ^ 31⟩ ⟨1⟩ = false ∧
    operator_ne id ⟨1 - 1 / 10 ^ 31⟩ ⟨1⟩ = true :=
  operators_not_total.2.2.1 id ⟨1 - 1 / 10 ^ 31⟩ ⟨1⟩
    operators_not_total.1.1 operators_not_total.1.2.1 operators_not_total.1.2.2

end bailey
